import Mathlib

/-!
Verification development for the `es/indexer` lambda
(`src/lambdas/es/indexer/index.py`): an event-driven pipeline that turns
S3 change notifications into Elasticsearch bulk index/delete requests.

The Python source is shallowly embedded: Python `str` values are Lean
`String`s (or lists of Unicode code points where byte-level encoding
matters), Python dicts with JSON values are association lists, raised
exceptions are `Except` errors, and in-place mutation of `DocumentQueue`
is explicit state passing.  External collaborators (the S3 client, the
Elasticsearch bulk helper, `json.loads`, `nbformat.reads`, the clock) are
parameters of the embedding, as the spec treats them as interfaces.
-/

set_option autoImplicit false

namespace Indexer

/-! ### Constants (index.py lines 21-47) -/

/-- `CONTENT_INDEX_EXTS` (index.py line 21): extensions whose contents are indexed. -/
def CONTENT_INDEX_EXTS : List String :=
  [".csv", ".html", ".ipynb", ".json", ".md", ".rmd", ".txt", ".xml"]

/-- `DOC_SIZE_LIMIT_BYTES` (index.py line 33). -/
def DOC_SIZE_LIMIT_BYTES : Nat := 10000

/-- `OBJECT_DELETE` (index.py line 40): event name of a true permanent delete. -/
def OBJECT_DELETE : String := "ObjectRemoved:Delete"

/-- `QUEUE_LIMIT_BYTES` (index.py line 41): queue flush threshold, 100 MB. -/
def QUEUE_LIMIT_BYTES : Nat := 100000000

/-- `TEST_EVENT` (index.py line 43). -/
def TEST_EVENT : String := "s3:TestEvent"

/-! ### A model of Python JSON-like values

Values stored in metadata dicts and bulk-error payloads are JSON values
(numbers restricted to integers, which suffices for every claim).
-/

/-- JSON-like Python value (dicts keep insertion order, as Python does). -/
inductive Json where
  | null : Json
  | bool (b : Bool) : Json
  | num (n : Int) : Json
  | str (s : String) : Json
  | arr (xs : List Json) : Json
  | obj (kvs : List (String × Json)) : Json

/-- Python exception kinds relevant to the indexer's `except` clauses. -/
inductive PyErr where
  | keyError : PyErr
  | attrError : PyErr
  | typeError : PyErr
  | valueError : PyErr
  | jsonDecodeError : PyErr
  | notJSONError : PyErr
  | unicodeDecodeError : PyErr
  | clientError : PyErr
  | otherError : PyErr
  deriving DecidableEq

/-- Python truthiness (`bool(v)`) of a JSON-like value. -/
def Json.truthy : Json → Bool
  | .null => false
  | .bool b => b
  | .num n => n != 0
  | .str s => s != ""
  | .arr xs => !xs.isEmpty
  | .obj kvs => !kvs.isEmpty

/-- Truthiness of an optional value, with `none` playing Python's `None`. -/
def truthyO : Option Json → Bool
  | none => false
  | some j => j.truthy

/-- `d.get(k)` on a Python dict: first binding of `k`, `None` when absent. -/
def dictGet (kvs : List (String × Json)) (k : String) : Option Json :=
  match kvs.lookup k with
  | some v => some v
  | none => none

/-- `d.pop(k, default)` on a Python dict: the popped value together with the
dict with the binding of `k` removed. -/
def dictPop (kvs : List (String × Json)) (k : String) (default : Json) :
    Json × List (String × Json) :=
  match kvs.lookup k with
  | some v => (v, kvs.eraseP (fun kv => kv.1 == k))
  | none => (default, kvs)

/-- Python's `a or b` for JSON-like values. -/
def pyOr (a b : Json) : Json :=
  if a.truthy then a else b

/-- One hexadecimal digit, lowercase (as in `json.dumps` escapes). -/
def hexDigit (n : Nat) : Char :=
  if n < 10 then Char.ofNat (48 + n) else Char.ofNat (87 + n % 6)

/-- Four-digit hexadecimal rendering of a code unit, as in `\uXXXX`. -/
def hex4 (n : Nat) : String :=
  String.mk [hexDigit (n / 4096 % 16), hexDigit (n / 256 % 16),
             hexDigit (n / 16 % 16), hexDigit (n % 16)]

/-- Escape of one character inside a `json.dumps` string literal
(`ensure_ascii=True`, the default: non-ASCII is `\uXXXX`-escaped,
astral code points become surrogate pairs). -/
def dumpsEscChar (c : Char) : String :=
  let n := c.toNat
  if c = '"' then "\\\""
  else if c = '\\' then "\\\\"
  else if c = '\n' then "\\n"
  else if c = '\t' then "\\t"
  else if c = '\r' then "\\r"
  else if n < 32 then "\\u" ++ hex4 n
  else if n < 128 then String.mk [c]
  else if n < 65536 then "\\u" ++ hex4 n
  else
    "\\u" ++ hex4 (55296 + (n - 65536) / 1024) ++ "\\u" ++ hex4 (56320 + (n - 65536) % 1024)

/-- `json.dumps` of a string value. -/
def dumpsStr (s : String) : String :=
  "\"" ++ String.join (s.data.map dumpsEscChar) ++ "\""

/-- Comma-and-space separated concatenation (the default `json.dumps` item
separator `", "`). -/
def joinComma : List String → String
  | [] => ""
  | [x] => x
  | x :: xs => x ++ ", " ++ joinComma xs

mutual

/-- Model of Python's `json.dumps` with default options (`ensure_ascii=True`,
separators `", "` and `": "`, insertion order preserved). -/
def dumpsJson : Json → String
  | .null => "null"
  | .bool b => if b then "true" else "false"
  | .num n => toString n
  | .str s => dumpsStr s
  | .arr xs => "[" ++ joinComma (dumpsList xs) ++ "]"
  | .obj kvs => "\x7b" ++ joinComma (dumpsObj kvs) ++ "\x7d"

/-- `json.dumps` of the elements of a list. -/
def dumpsList : List Json → List String
  | [] => []
  | x :: xs => dumpsJson x :: dumpsList xs

/-- `json.dumps` of the entries of a dict. -/
def dumpsObj : List (String × Json) → List String
  | [] => []
  | (k, v) :: kvs => (dumpsStr k ++ ": " ++ dumpsJson v) :: dumpsObj kvs

end

/-- `" ".join(parts)` where every part must be a `str`
(Python raises `TypeError` otherwise). -/
def pyJoinSp (parts : List Json) : Except PyErr String :=
  match parts with
  | [] => .ok ""
  | .str s :: rest =>
      match pyJoinSp rest with
      | .ok tail => .ok (if rest.isEmpty then s else s ++ " " ++ tail)
      | .error e => .error e
  | _ :: _ => .error .typeError

/-! ### `transform_meta` (index.py lines 314-339) -/

/-- Result record of `transform_meta`; `system_meta` is `Option` because the
source can return Python `None` there (when `meta` has no `"helium"` key),
and `comment`/`target` are JSON values because `helium.pop("comment", "") or
""` can produce any truthy value. -/
structure TransformOut where
  system_meta : Option Json
  user_meta : Json
  comment : Json
  target : Json
  meta_text : String

/-- `transform_meta(meta)` (index.py lines 314-339): reshape metadata for
indexing.  Pops `user_meta`, `comment`, `target` out of the `"helium"`
sub-dict when that sub-dict is truthy; `meta_text` space-joins comment,
target, and JSON dumps of the non-empty remainders.  A truthy non-dict
`helium` raises `AttributeError` at `helium.pop`; non-string parts raise
`TypeError` at `" ".join`. -/
def transform_meta (meta : List (String × Json)) : Except PyErr TransformOut :=
  match dictGet meta "helium" with
  | some (.obj kvs) =>
      if (Json.obj kvs).truthy then
        let (user_meta, kvs1) := dictPop kvs "user_meta" (.obj [])
        let (comment0, kvs2) := dictPop kvs1 "comment" (.str "")
        let comment := pyOr comment0 (.str "")
        let (target0, kvs3) := dictPop kvs2 "target" (.str "")
        let target := pyOr target0 (.str "")
        let parts := [comment, target]
          ++ (if (Json.obj kvs3).truthy then [.str (dumpsJson (.obj kvs3))] else [])
          ++ (if user_meta.truthy then [.str (dumpsJson user_meta)] else [])
        match pyJoinSp parts with
        | .ok meta_text =>
            .ok ⟨some (.obj kvs3), user_meta, comment, target, meta_text⟩
        | .error e => .error e
      else
        .ok ⟨some (.obj kvs), .obj [], .str "", .str "", " "⟩
  | some j =>
      if j.truthy then .error .attrError
      else .ok ⟨some j, .obj [], .str "", .str "", " "⟩
  | none => .ok ⟨none, .obj [], .str "", .str "", " "⟩

/-! ### UTF-8 encoding and decoding

Python strings are modeled as lists of Unicode code points (`Nat`), byte
strings as lists of `Nat` below 256.  `cpEnc` is `chr(c).encode("utf-8")`
for one scalar value, `u8d` models `bytes.decode("utf-8", errors)` with a
substitution list per invalid maximal subpart (`[]` for `"ignore"`, the
replacement character for `"replace"`), and `u8dStrict` models strict
decoding (`errors="strict"` raising `UnicodeDecodeError`).
-/

/-- A Unicode scalar value: a code point that `str.encode("utf-8")` accepts
(surrogates make Python's encoder raise). -/
def ValidScalar (c : Nat) : Prop :=
  c < 1114112 ∧ (c < 55296 ∨ 57344 ≤ c)

instance (c : Nat) : Decidable (ValidScalar c) := by
  unfold ValidScalar; infer_instance

/-- UTF-8 encoding of one scalar value. -/
def cpEnc (c : Nat) : List Nat :=
  if c < 128 then [c]
  else if c < 2048 then [192 + c / 64, 128 + c % 64]
  else if c < 65536 then [224 + c / 4096, 128 + c / 64 % 64, 128 + c % 64]
  else [240 + c / 262144, 128 + c / 4096 % 64, 128 + c / 64 % 64, 128 + c % 64]

/-- `s.encode("utf-8")` for a string given as code points. -/
def utf8Encode (s : List Nat) : List Nat :=
  (s.map cpEnc).flatten

/-- The continuation-byte window for the next byte of a partially decoded
character: after a lead byte the strict UTF-8 table restricts the second
byte (no overlong forms under leads `0xE0`/`0xF0`, no surrogates under
`0xED`, nothing above `U+10FFFF` under `0xF4`); later continuation bytes
are plain `0x80..0xBF`.  The decoder state is `(need, acc, lo, hi)`:
continuation bytes still expected, the value accumulated so far, and the
window for the next byte. -/
def u8dGo (repl : List Nat) : Option (Nat × Nat × Nat × Nat) → List Nat → List Nat
  | none, [] => []
  | some _, [] => repl
  | none, b :: t =>
      if b < 128 then b :: u8dGo repl none t
      else if b < 194 then repl ++ u8dGo repl none t
      else if b < 224 then u8dGo repl (some (1, b - 192, 128, 192)) t
      else if b < 240 then
        u8dGo repl (some (2, b - 224, if b == 224 then 160 else 128,
          if b == 237 then 160 else 192)) t
      else if b < 245 then
        u8dGo repl (some (3, b - 240, if b == 240 then 144 else 128,
          if b == 244 then 144 else 192)) t
      else repl ++ u8dGo repl none t
  | some (need, acc, lo, hi), b :: t =>
      if lo ≤ b ∧ b < hi then
        if need ≤ 1 then (acc * 64 + (b - 128)) :: u8dGo repl none t
        else u8dGo repl (some (need - 1, acc * 64 + (b - 128), 128, 192)) t
      else
        repl ++
          (if b < 128 then b :: u8dGo repl none t
          else if b < 194 then repl ++ u8dGo repl none t
          else if b < 224 then u8dGo repl (some (1, b - 192, 128, 192)) t
          else if b < 240 then
            u8dGo repl (some (2, b - 224, if b == 224 then 160 else 128,
              if b == 237 then 160 else 192)) t
          else if b < 245 then
            u8dGo repl (some (3, b - 240, if b == 240 then 144 else 128,
              if b == 244 then 144 else 192)) t
          else repl ++ u8dGo repl none t)

/-- `bytes.decode("utf-8", errors)` where each invalid maximal subpart is
replaced by `repl` (so `repl = []` is `errors="ignore"` and
`repl = [0xFFFD]` is `errors="replace"`), following CPython's
maximal-subpart error handling: an invalid or truncated sequence emits
`repl` and decoding resumes at the offending byte. -/
def u8d (repl : List Nat) (l : List Nat) : List Nat :=
  u8dGo repl none l

/-- Strict UTF-8 decoding as a state machine (same states as `u8dGo`);
`none` models a raised `UnicodeDecodeError`. -/
def u8dStrictGo : Option (Nat × Nat × Nat × Nat) → List Nat → Option (List Nat)
  | none, [] => some []
  | some _, [] => none
  | none, b :: t =>
      if b < 128 then (u8dStrictGo none t).map (b :: ·)
      else if b < 194 then none
      else if b < 224 then u8dStrictGo (some (1, b - 192, 128, 192)) t
      else if b < 240 then
        u8dStrictGo (some (2, b - 224, if b == 224 then 160 else 128,
          if b == 237 then 160 else 192)) t
      else if b < 245 then
        u8dStrictGo (some (3, b - 240, if b == 240 then 144 else 128,
          if b == 244 then 144 else 192)) t
      else none
  | some (need, acc, lo, hi), b :: t =>
      if lo ≤ b ∧ b < hi then
        if need ≤ 1 then (u8dStrictGo none t).map ((acc * 64 + (b - 128)) :: ·)
        else u8dStrictGo (some (need - 1, acc * 64 + (b - 128), 128, 192)) t
      else none

/-- `bytes.decode("utf-8")` with strict error handling. -/
def u8dStrict (l : List Nat) : Option (List Nat) :=
  u8dStrictGo none l

/-- `trim_to_bytes(string, limit)` (index.py lines 488-494): trim a string to
at most `limit` UTF-8 bytes, slicing the encoded bytes and re-decoding with
`errors="ignore"`. -/
def trim_to_bytes (s : List Nat) (limit : Nat := DOC_SIZE_LIMIT_BYTES) : List Nat :=
  let encoded := utf8Encode s
  let size := encoded.length
  if size ≤ limit then s
  else u8d [] (encoded.take limit)

/-! ### Documents and the `DocumentQueue` (index.py lines 69-185) -/

/-- Python's `needle in hay` prefix test on character lists. -/
def subAt : List Char → List Char → Bool
  | [], _ => true
  | _ :: _, [] => false
  | a :: p, b :: s => a == b && subAt p s

/-- Substring occurrence anywhere in the list. -/
def subIn (p : List Char) : List Char → Bool
  | [] => subAt p []
  | b :: s => subAt p (b :: s) || subIn p s

/-- Python's `needle in hay` for strings. -/
def pyInStr (needle hay : String) : Bool :=
  subIn needle.data hay.data

/-- Python f-string interpolation of a value that is either a string or
`None` (as in `f"{key}:{version_id}"`, index.py line 102). -/
def pyFStr : Option String → String
  | none => "None"
  | some s => s

/-- One document as built by `DocumentQueue.append` (index.py lines 98-123):
the dict sent to the bulk API.  `version_id` is `Option` because the source
stores Python `None` there for unversioned objects; `system_meta` is
`Option` for the same reason (via `transform_meta`); `system` models the
extra dict key that `send_all`'s retry path writes (index.py line 179) and
which no other code produces, so it is `none` for every freshly appended
document. -/
structure Doc where
  _id : String
  _index : String
  _op_type : String
  _type : String
  etag : String
  ext : String
  event : String
  size : Nat
  text : String
  key : String
  last_modified : String
  updated : String
  version_id : Option String
  system_meta : Option Json
  user_meta : Json
  comment : Json
  target : Json
  meta_text : String
  system : Option Json

/-- Mutable state of a `DocumentQueue` (index.py lines 71-75): the pending
documents and the approximate byte-size counter. -/
structure DocumentQueue where
  queue : List Doc
  size : Nat

/-- One per-item error from the bulk response, as inspected by `send_all`
(index.py lines 169-180): the single wrapper key (`"index"`, `"delete"`,
...), the inner `_id` (absent models a missing `"_id"` key, which makes
`inner["_id"]` raise `KeyError`), and the inner `"error"` value (absent
models `inner.get("error") is None`). -/
structure BulkErr where
  op : String
  id : Option String
  errorInfo : Option Json

/-- One recorded call to the S3 client: the operation name (`"head"` or
`"get"`) and the keyword arguments. -/
structure S3Args where
  bucket : String
  key : String
  range : Option String
  versionId : Option String
  ifMatch : Option String

/-- `head_object` response fields the handler reads (index.py lines 384-386);
`lastModified` is the already-ISO-formatted timestamp (the source calls
`.isoformat()` on it in `append`). -/
structure HeadRes where
  contentLength : Nat
  lastModified : String
  metadata : List (String × String)

/-- `get_object` response: the byte body (already range-limited by S3). -/
structure GetRes where
  body : List Nat

/-- The external collaborators of the pipeline, as the spec's interfaces:
the S3 client (`head_object`/`get_object`, with the retry loop collapsed to
the eventual outcome of the retried call), `json.loads`, `nbformat.reads`,
the current time, and the Elasticsearch bulk helper returning per-item
errors. -/
structure Env where
  s3head : S3Args → Except PyErr HeadRes
  s3get : S3Args → Except PyErr GetRes
  loads : String → Except PyErr Json
  nbReads : String → Except PyErr Json
  now : String
  bulk : List Doc → List BulkErr

/-- `doc['user_meta'] = doc['system'] = {}` (index.py line 179), verbatim:
it clears `user_meta` and writes an (otherwise unused) `system` key; it
does NOT touch `system_meta`. -/
def clearForRetry (d : Doc) : Doc :=
  { d with user_meta := .obj [], system := some (.obj []) }

/-- `{d["_id"]: d for d in queue}[id]`: dict comprehension keyed by `_id`
keeps the last document with a given id. -/
def lastDocWithId (queue : List Doc) (id : String) : Option Doc :=
  (queue.filter (fun d => d._id == id)).getLast?

/-- Replace the last document with the given `_id` (the object aliased by
the id-to-doc dict, mutated in place by the source). -/
def setLastById : List Doc → String → Doc → List Doc
  | [], _, _ => []
  | d :: t, id, d' =>
      if d._id == id && t.all (fun x => x._id != id) then d' :: t
      else d :: setLastById t id d'

/-- The error-inspection loop of `send_all` (index.py lines 169-180): for
each per-item error whose wrapper key is `"index"`, whose `error` value is
a dict, and whose `type` contains `mapper_parsing_exception`, look the
document up by `_id`, clear it with `clearForRetry` (mutating the queued
object in place) and add it to `send_again`.  Returns the mutated queue,
`send_again`, and the outcome (`KeyError` for a missing id, `TypeError`
when `in` is applied to a non-string `type`), stopping where the Python
loop would raise. -/
def processErrors (queue : List Doc) : List BulkErr → List Doc × List Doc × Except PyErr Unit
  | [] => (queue, [], .ok ())
  | e :: rest =>
    if e.op == "index" then
      match e.errorInfo with
      | some (.obj kvs) =>
          match (dictGet kvs "type").getD (.str "") with
          | .str s =>
              if pyInStr "mapper_parsing_exception" s then
                match e.id with
                | none => (queue, [], .error .keyError)
                | some id =>
                    match lastDocWithId queue id with
                    | none => (queue, [], .error .keyError)
                    | some d =>
                        let d' := clearForRetry d
                        let queue' := setLastById queue id d'
                        let (qf, sa, r) := processErrors queue' rest
                        (qf, d' :: sa, r)
              else processErrors queue rest
          | _ => (queue, [], .error .typeError)
      | some _ => processErrors queue rest
      | none => processErrors queue rest
    else processErrors queue rest

/-- Result of `send_all`: the queue state afterwards, the bulk calls issued
(each entry is the document list of one `_bulk_send`), and the outcome. -/
structure SendRes where
  q : DocumentQueue
  calls : List (List Doc)
  err : Except PyErr Unit

/-- `DocumentQueue.send_all` (index.py lines 138-185): no-op on an empty
queue; otherwise one bulk call of the whole queue, selective collection of
`mapper_parsing_exception` index errors into `send_again`, exactly one
further bulk call of that subset, then the queue and size counter are
unconditionally reset.  If the inspection loop raises, the state keeps the
(partially mutated) queue and the old size, as in the source. -/
def DocumentQueue.send_all (env : Env) (q : DocumentQueue) : SendRes :=
  if q.queue.isEmpty then ⟨q, [], .ok ()⟩
  else
    let errors := env.bulk q.queue
    let (qmut, send_again, r) := processErrors q.queue errors
    match r with
    | .error e => ⟨⟨qmut, q.size⟩, [q.queue], .error e⟩
    | .ok () => ⟨⟨[], 0⟩, [q.queue, send_again], .ok ()⟩

/-- The document dict literal plus metadata merge of `append` (index.py
lines 98-123): Elasticsearch keys, Quilt keys, the `transform_meta` fields
merged in, and the object key joined onto `meta_text`. -/
def mk_body (event_type : String) (size : Nat) (last_modified bucket ext key text etag : String)
    (version_id : Option String) (now : String) (m : TransformOut) : Doc :=
  { _id := key ++ ":" ++ pyFStr version_id
    _index := bucket
    _op_type := if event_type == OBJECT_DELETE then "delete" else "index"
    _type := "_doc"
    etag := etag
    ext := ext
    event := event_type
    size := size
    text := text
    key := key
    last_modified := last_modified
    updated := now
    version_id := version_id
    system_meta := m.system_meta
    user_meta := m.user_meta
    comment := m.comment
    target := m.target
    meta_text := m.meta_text ++ " " ++ key
    system := none }

/-- Result of `append`: queue state, the bulk calls of the implicit flush
when one was triggered (`none` otherwise), and the outcome. -/
structure AppendRes where
  q : DocumentQueue
  flushCalls : Option (List (List Doc))
  err : Except PyErr Unit

/-- `DocumentQueue.append` (index.py lines 77-128): bump the size counter by
`min(size, DOC_SIZE_LIMIT_BYTES)` when `text` is non-empty, build the
document (which calls `transform_meta`, whose exception propagates after
the size bump but before the document is queued), queue it, and flush via
`send_all` when the counter exceeds `QUEUE_LIMIT_BYTES`. -/
def DocumentQueue.append (env : Env) (q : DocumentQueue) (event_type : String)
    (size : Nat) (meta : Option (List (String × Json)))
    (last_modified bucket ext key text etag : String)
    (version_id : Option String) : AppendRes :=
  let size1 := if text != "" then q.size + min size DOC_SIZE_LIMIT_BYTES else q.size
  match transform_meta (meta.getD []) with
  | .error e => ⟨⟨q.queue, size1⟩, none, .error e⟩
  | .ok m =>
      let body := mk_body event_type size last_modified bucket ext key text etag version_id env.now m
      let q2 : DocumentQueue := ⟨q.queue ++ [body], size1⟩
      if QUEUE_LIMIT_BYTES < size1 then
        let s := DocumentQueue.send_all env q2
        ⟨s.q, some s.calls, s.err⟩
      else ⟨q2, none, .ok ()⟩

/-! ### `retry_s3` (index.py lines 440-486)

The tenacity retry loop (exponential backoff bounded by remaining lambda
time and `MAX_RETRY`) is collapsed to the eventual outcome of the retried
call, supplied by the environment; an exhausted retry is an `Except`
error.  What the embedding keeps precisely is the construction of the
request arguments and which client operation is invoked.
-/

/-- Python truthiness of the optional `size` argument (`None` and `0` are
falsy). -/
def sizeTruthy : Option Nat → Bool
  | none => false
  | some n => n != 0

/-- Python truthiness of an optional string (`None` and `""` are falsy). -/
def optStrTruthy : Option String → Bool
  | none => false
  | some s => s != ""

/-- The keyword-argument dict built by `retry_s3` (index.py lines 456-474):
`ValueError` for an unknown operation; a `Range` header exactly for a `get`
with truthy size; `VersionId` when `version_id` is truthy, else `IfMatch`. -/
def s3_arguments (operation : String) (bucket key : String) (size : Option Nat)
    (limit : Nat) (etag : String) (version_id : Option String) : Except PyErr S3Args :=
  if !(operation == "get" || operation == "head") then .error .valueError
  else
    let range := if sizeTruthy size && operation == "get"
      then some ("bytes=0-" ++ toString limit) else none
    if optStrTruthy version_id then
      .ok ⟨bucket, key, range, version_id, none⟩
    else
      .ok ⟨bucket, key, range, none, some etag⟩

/-- An S3 response: `head_object` or `get_object` shaped. -/
inductive S3Resp where
  | headRes (h : HeadRes) : S3Resp
  | getRes (g : GetRes) : S3Resp

/-- `retry_s3` (index.py lines 440-486): build the arguments, pick
`head_object` or `get_object`, and issue the (retried) call.  The second
component records the calls made to the S3 client, for observing which
operations an event triggers. -/
def retry_s3 (operation : String) (bucket key : String) (size : Option Nat)
    (limit : Nat) (etag : String) (version_id : Option String) (env : Env) :
    Except PyErr S3Resp × List (String × S3Args) :=
  match s3_arguments operation bucket key size limit etag version_id with
  | .error e => (.error e, [])
  | .ok args =>
      if operation == "head" then ((env.s3head args).map .headRes, [("head", args)])
      else ((env.s3get args).map .getRes, [("get", args)])

/-! ### Content extraction (index.py lines 187-295) -/

/-- A Python string as its list of code points. -/
def strToCps (s : String) : List Nat :=
  s.data.map Char.toNat

/-- Back from code points to a string (all decoder outputs are scalar
values, for which `Char.ofNat` is exact). -/
def cpsToStr (l : List Nat) : String :=
  String.mk (l.map Char.ofNat)

/-- `trim_to_bytes` at the `String` level, used where the handler deals in
Lean strings. -/
def trimStr (s : String) (limit : Nat := DOC_SIZE_LIMIT_BYTES) : String :=
  cpsToStr (trim_to_bytes (strToCps s) limit)

/-- `sep.join(parts)` where every part must be a `str`
(Python raises `TypeError` otherwise). -/
def pyJoin (sep : String) : List Json → Except PyErr String
  | [] => .ok ""
  | .str s :: rest =>
      match pyJoin sep rest with
      | .ok tail => .ok (if rest.isEmpty then s else s ++ sep ++ tail)
      | .error e => .error e
  | _ :: _ => .error .typeError

/-- Is this cell's `cell_type` in `('code', 'markdown')`? (`None` — a
missing key — and non-string values compare unequal.) -/
def cellTypeOk : Option Json → Bool
  | some (.str t) => t == "code" || t == "markdown"
  | _ => false

/-- The cell loop of `extract_text` (index.py lines 242-244): keep
`cell["source"]` for code and markdown cells that carry a `source` key.  A
non-dict cell makes the membership test or attribute access raise. -/
def collectCells : List Json → Except PyErr (List Json)
  | [] => .ok []
  | .obj kvs :: rest =>
      let keep := (kvs.lookup "source").isSome && cellTypeOk (dictGet kvs "cell_type")
      (collectCells rest).map (fun tail =>
        if keep then ((kvs.lookup "source").getD .null) :: tail else tail)
  | _ :: _ => .error .typeError

/-- `extract_text(notebook_str)` (index.py lines 218-246): parse via
`nbformat.reads` (an environment capability, which may throw anything),
iterate `formatted.get("cells", [])`, and newline-join the kept sources. -/
def extract_text (env : Env) (notebook_str : String) : Except PyErr String := do
  let formatted ← env.nbReads notebook_str
  match formatted with
  | .obj kvs =>
      match (dictGet kvs "cells").getD (.arr []) with
      | .arr cs => do
          let srcs ← collectCells cs
          pyJoin "\n" srcs
      | _ => .error .typeError
  | _ => .error .attrError

/-- `get_notebook_cells` (index.py lines 248-275): fetch, decode UTF-8,
extract; every exception (`UnicodeDecodeError`, JSON errors, missing keys,
anything else) is caught and yields the initial empty text.  Also returns
the S3 calls made. -/
def get_notebook_cells (env : Env) (bucket key : String) (size : Nat)
    (etag : String) (version_id : Option String) : String × List (String × S3Args) :=
  let (r, log) := retry_s3 "get" bucket key (some size) DOC_SIZE_LIMIT_BYTES etag version_id env
  match r with
  | .error _ => ("", log)
  | .ok (.getRes g) =>
      match u8dStrict g.body with
      | none => ("", log)
      | some cps =>
          match extract_text env (cpsToStr cps) with
          | .ok t => (t, log)
          | .error _ => ("", log)
  | .ok (.headRes _) => ("", log)

/-- `get_plain_text` (index.py lines 277-295): fetch and decode UTF-8;
only `UnicodeDecodeError` is caught (yielding empty text) — S3 failures
propagate to the per-event guard in the handler. -/
def get_plain_text (env : Env) (bucket key : String) (size : Nat)
    (etag : String) (version_id : Option String) :
    Except PyErr String × List (String × S3Args) :=
  let (r, log) := retry_s3 "get" bucket key (some size) DOC_SIZE_LIMIT_BYTES etag version_id env
  match r with
  | .error e => (.error e, log)
  | .ok (.getRes g) =>
      match u8dStrict g.body with
      | none => (.ok "", log)
      | some cps => (.ok (cpsToStr cps), log)
  | .ok (.headRes _) => (.ok "", log)

/-- `get_contents` (index.py lines 187-216): empty text for non-indexed
extensions; notebooks are parsed then byte-safely trimmed; everything else
is fetched as plain text. -/
def get_contents (env : Env) (bucket key ext : String) (etag : String)
    (version_id : Option String) (size : Nat) :
    Except PyErr String × List (String × S3Args) :=
  if CONTENT_INDEX_EXTS.contains ext then
    if ext == ".ipynb" then
      let (t, log) := get_notebook_cells env bucket key size etag version_id
      (.ok (trimStr t), log)
    else
      get_plain_text env bucket key size etag version_id
  else (.ok "", [])

/-! ### Percent decoding and `splitext` (stdlib helpers used by the handler) -/

/-- Value of one hexadecimal digit character. -/
def hexVal (c : Char) : Option Nat :=
  if '0' ≤ c && c ≤ '9' then some (c.toNat - 48)
  else if 'a' ≤ c && c ≤ 'f' then some (c.toNat - 87)
  else if 'A' ≤ c && c ≤ 'F' then some (c.toNat - 65 + 10)
  else none

/-- Tokenize `%XX` escapes (models the splitting pass of
`urllib.parse.unquote`): a byte for each valid escape, the literal
character otherwise. -/
def pctTokensGo : Nat → List Char → List (Sum Char Nat)
  | _, [] => []
  | 0, l => l.map .inl
  | fuel + 1, c :: rest =>
    if c == '%' then
      match rest with
      | c1 :: c2 :: rest2 =>
          match hexVal c1, hexVal c2 with
          | some h, some l => .inr (16 * h + l) :: pctTokensGo fuel rest2
          | _, _ => .inl c :: pctTokensGo fuel rest
      | _ => .inl c :: pctTokensGo fuel rest
    else .inl c :: pctTokensGo fuel rest

/-- Tokenizer entry point: the fuel (bounding recursion depth) is the input
length, which every step consumes at least one character of. -/
def pctTokens (l : List Char) : List (Sum Char Nat) :=
  pctTokensGo l.length l

/-- Render the token stream: maximal runs of escaped bytes are UTF-8
decoded with `errors="replace"` (the `unquote` default), literal
characters pass through. -/
def renderTokens (ts : List (Sum Char Nat)) : List Char :=
  let step := fun (t : Sum Char Nat) (acc : List Nat × List Char) =>
    match t with
    | .inr b => (b :: acc.1, acc.2)
    | .inl c => ([], c :: ((u8d [65533] acc.1).map Char.ofNat ++ acc.2))
  let (pend, out) := ts.foldr step ([], [])
  (u8d [65533] pend).map Char.ofNat ++ out

/-- `urllib.parse.unquote` with default UTF-8/replace semantics. -/
def pyUnquote (s : String) : String :=
  String.mk (renderTokens (pctTokens s.data))

/-- `urllib.parse.unquote_plus`: `+` becomes a space, then `unquote`. -/
def pyUnquotePlus (s : String) : String :=
  pyUnquote (String.mk (s.data.map (fun c => if c == '+' then ' ' else c)))

/-- The extension part of `os.path.splitext(key)`: last dot-suffix of the
final path component, except that leading dots of the component never
start an extension. -/
def pySplitextExt (key : String) : String :=
  let base := key.data.foldl (fun acc c => if c == '/' then [] else acc ++ [c]) []
  let idxs := (List.range base.length).filter (fun i => base.get? i == some '.')
  match idxs.getLast? with
  | none => ""
  | some i => if (base.take i).any (fun c => c != '.') then String.mk (base.drop i) else ""

/-- `str.lower`, restricted (as the source's extension strings are) to
ASCII case mapping. -/
def pyLower (s : String) : String :=
  String.mk (s.data.map Char.toLower)

/-! ### The handler (index.py lines 341-438)

The embedding covers the per-batch body (lines 358-438): a fresh
`DocumentQueue`, the per-event loop with its catch-all guard, and the
final `send_all`.  The outer SQS-envelope decoding (lines 348-357) is
plumbing that only selects which batches reach this code.
-/

/-- The fields the handler decodes from one S3 change event
(index.py lines 364-372). -/
structure RecordFields where
  eventName : String
  bucket : String
  key : String
  versionId : Option String
  etag : String
  ext : String

/-- `d[k]` on a JSON value: `KeyError` for a missing key, `TypeError` when
subscripting a non-dict. -/
def jGetD (j : Json) (k : String) : Except PyErr Json :=
  match j with
  | .obj kvs =>
      match kvs.lookup k with
      | some v => .ok v
      | none => .error .keyError
  | _ => .error .typeError

/-- `d[k]` that must produce a string (the handler immediately feeds these
values to `unquote`, which needs `str`). -/
def jGetStr (j : Json) (k : String) : Except PyErr String :=
  match jGetD j k with
  | .ok (.str s) => .ok s
  | .ok _ => .error .typeError
  | .error e => .error e

/-- Decoding of one event record (index.py lines 364-372): event name,
percent-decoded bucket and key (`+` → space in keys), optional version id
(`unquote(version_id) if version_id else None`), etag, and the lowercased
extension. -/
def parseRecord (event_ : Json) : Except PyErr RecordFields := do
  let event_name ← jGetStr event_ "eventName"
  let s3 ← jGetD event_ "s3"
  let bucketD ← jGetD s3 "bucket"
  let bucket ← (jGetStr bucketD "name").map pyUnquote
  let objD ← jGetD s3 "object"
  let key ← (jGetStr objD "key").map pyUnquotePlus
  let versionId ← match objD with
    | .obj kvs =>
        match dictGet kvs "versionId" with
        | some (.str v) => if v != "" then pure (some (pyUnquote v)) else pure none
        | some j => if j.truthy then .error .typeError else pure none
        | none => pure none
    | _ => .error .attrError
  let etag ← (jGetStr objD "eTag").map pyUnquote
  pure ⟨event_name, bucket, key, versionId, etag, pyLower (pySplitextExt key)⟩

/-- The `helium` metadata decode (index.py lines 414-419): head metadata is
a string-valued dict; when a `helium` key is present its value is
`json.loads`-parsed in place, with `KeyError`/`JSONDecodeError` caught and
logged (leaving the raw string in place). -/
def decode_helium (env : Env) (meta : List (String × String)) :
    Except PyErr (List (String × Json)) :=
  let metaJ : List (String × Json) := meta.map (fun kv => (kv.1, Json.str kv.2))
  match meta.lookup "helium" with
  | none => .ok metaJ
  | some s =>
      match env.loads s with
      | .ok j => .ok (metaJ.map (fun kv => if kv.1 == "helium" then (kv.1, j) else kv))
      | .error .jsonDecodeError => .ok metaJ
      | .error .keyError => .ok metaJ
      | .error e => .error e

/-- Result of processing one event: queue state, implicit flush calls (if
`append` crossed the threshold), S3 calls issued, and the outcome before
the per-event guard. -/
structure EvRes where
  q : DocumentQueue
  flushCalls : Option (List (List Doc))
  log : List (String × S3Args)
  err : Except PyErr Unit

/-- The body of the per-event `try` block (index.py lines 363-432): decode
the record, `head` the object, then either enqueue a delete document with
empty text (skipping content extraction entirely) or extract content,
decode metadata, and enqueue an index document. -/
def handle_event_core (env : Env) (event_ : Json) (q : DocumentQueue) : EvRes :=
  match parseRecord event_ with
  | .error e => ⟨q, none, [], .error e⟩
  | .ok f =>
      let (hr, log1) := retry_s3 "head" f.bucket f.key none DOC_SIZE_LIMIT_BYTES f.etag f.versionId env
      match hr with
      | .error e => ⟨q, none, log1, .error e⟩
      | .ok (.getRes _) => ⟨q, none, log1, .error .otherError⟩
      | .ok (.headRes h) =>
          if f.eventName == OBJECT_DELETE then
            let a := DocumentQueue.append env q f.eventName 0 none
              h.lastModified f.bucket f.ext f.key "" f.etag f.versionId
            ⟨a.q, a.flushCalls, log1, a.err⟩
          else
            let (textE, log2) := get_contents env f.bucket f.key f.ext f.etag f.versionId h.contentLength
            match textE with
            | .error e => ⟨q, none, log1 ++ log2, .error e⟩
            | .ok text =>
                match decode_helium env h.metadata with
                | .error e => ⟨q, none, log1 ++ log2, .error e⟩
                | .ok meta =>
                    let a := DocumentQueue.append env q f.eventName h.contentLength (some meta)
                      h.lastModified f.bucket f.ext f.key text f.etag f.versionId
                    ⟨a.q, a.flushCalls, log1 ++ log2, a.err⟩

/-- One event under the per-event guard (index.py lines 433-436): any
exception from the `try` body is printed with its traceback and swallowed;
the loop proceeds with the state as the failed step left it. -/
def handle_event (env : Env) (event_ : Json) (q : DocumentQueue) : EvRes :=
  let r := handle_event_core env event_ q
  ⟨r.q, r.flushCalls, r.log, .ok ()⟩

/-- The per-event loop of the handler (index.py lines 362-436), returning
the final queue, the implicit flushes triggered inside `append`, and the
S3 call log. -/
def run_events (env : Env) : List Json → DocumentQueue →
    DocumentQueue × List (List (List Doc)) × List (String × S3Args)
  | [], q => (q, [], [])
  | e :: es, q =>
      let r := handle_event env e q
      let (qf, fls, logs) := run_events env es r.q
      (qf, r.flushCalls.toList ++ fls, r.log ++ logs)

/-- Result of one batch: final queue state, implicit flushes, the calls of
the single terminal `send_all`, the S3 call log, and the terminal
`send_all`'s outcome (which, unlike per-event errors, is not guarded). -/
structure BatchRes where
  q : DocumentQueue
  implicit : List (List (List Doc))
  final : List (List Doc)
  log : List (String × S3Args)
  err : Except PyErr Unit

/-- The per-batch body of `handler` (index.py lines 358-438): a fresh
`DocumentQueue`, the guarded per-event loop, then exactly one terminal
`send_all`. -/
def handler_records (env : Env) (events : List Json) : BatchRes :=
  let (q1, fls, logs) := run_events env events ⟨[], 0⟩
  let s := DocumentQueue.send_all env q1
  ⟨s.q, fls, s.calls, logs, s.err⟩

/-! ### `transform_meta` with explicit object identity (index.py lines 314-339)

`transform_meta` mutates its argument: `helium.pop(...)` removes keys from
the caller's nested dict in place, and line 334 returns that same dict
object as `system_meta`.  To express object identity in a pure embedding,
the nested dict lives in a heap (a list of dict contents indexed by
address) and the metadata maps the `"helium"` key to a reference; the
function is the same `transform_meta`, with dict mutation as heap update.
-/

/-- A metadata value: a plain JSON value, or a reference to a heap-held
dict (Python object identity = heap address). -/
inductive HVal where
  | prim (j : Json) : HVal
  | ref (a : Nat) : HVal

/-- A heap of dict objects, indexed by address. -/
abbrev Heap : Type := List (List (String × Json))

/-- Result record of the state-passing `transform_meta`: `system_meta`
keeps the value — in particular the same reference — that the source
returns. -/
structure TransformRefOut where
  system_meta : Option HVal
  user_meta : Json
  comment : Json
  target : Json
  meta_text : String

/-- `transform_meta(meta)` (index.py lines 314-339) in state-passing form:
identical control flow to `transform_meta`, with the `helium` dict held in
the heap, the three `pop`s updating it in place, and `system_meta`
returning the very same reference. -/
def transform_meta_heap (meta : List (String × HVal)) (heap : Heap) :
    Except PyErr TransformRefOut × Heap :=
  match meta.lookup "helium" with
  | some (.ref a) =>
      match (heap : List (List (String × Json))).get? a with
      | none => (.error .otherError, heap)
      | some kvs =>
          if (Json.obj kvs).truthy then
            let (user_meta, kvs1) := dictPop kvs "user_meta" (.obj [])
            let (comment0, kvs2) := dictPop kvs1 "comment" (.str "")
            let comment := pyOr comment0 (.str "")
            let (target0, kvs3) := dictPop kvs2 "target" (.str "")
            let target := pyOr target0 (.str "")
            let heap' := (heap : List (List (String × Json))).set a kvs3
            let parts := [comment, target]
              ++ (if (Json.obj kvs3).truthy then [.str (dumpsJson (.obj kvs3))] else [])
              ++ (if user_meta.truthy then [.str (dumpsJson user_meta)] else [])
            match pyJoinSp parts with
            | .ok mt => (.ok ⟨some (.ref a), user_meta, comment, target, mt⟩, heap')
            | .error e => (.error e, heap')
          else (.ok ⟨some (.ref a), .obj [], .str "", .str "", " "⟩, heap)
  | some (.prim j) =>
      if j.truthy then (.error .attrError, heap)
      else (.ok ⟨some (.prim j), .obj [], .str "", .str "", " "⟩, heap)
  | none => (.ok ⟨none, .obj [], .str "", .str "", " "⟩, heap)

/-! ### Observation helpers -/

/-- The first bulk call of an implicit flush (empty when no flush fired). -/
def flushFirst : Option (List (List Doc)) → List Doc
  | none => []
  | some cs => cs.headD []

/-- All documents sent by the first bulk call of each flush, in order. -/
def sentDocs (fls : List (List (List Doc))) : List Doc :=
  (fls.map (fun f => f.headD [])).flatten

/-! ### Concrete instances used by witnesses and counterexamples -/

/-- An environment whose collaborators all fail or return nothing: the
bulk helper reports no per-item errors. -/
def envNull : Env where
  s3head := fun _ => .error .clientError
  s3get := fun _ => .error .clientError
  loads := fun _ => .error .jsonDecodeError
  nbReads := fun _ => .error .notJSONError
  now := "2020-01-01T00:00:00"
  bulk := fun _ => []

/-- The `transform_meta` output for metadata without a `helium` key. -/
def outEmpty : TransformOut := ⟨none, .obj [], .str "", .str "", " "⟩

/-- A queued document carrying non-empty `system_meta`, as enqueued for an
object whose helium metadata had a leftover system field. -/
def d0 : Doc :=
  mk_body "ObjectCreated:Put" 10 "2020-01-01T00:00:00" "bkt" ".txt" "k" "t" "e"
    none "2020-01-01T00:00:00"
    ⟨some (.obj [("a", .str "b")]), .obj [("u", .num 1)], .str "", .str "", " "⟩

/-- An environment whose bulk call reports a `mapper_parsing_exception`
index error for the document `d0`. -/
def envC1 : Env :=
  { envNull with
    bulk := fun _ =>
      [⟨"index", some "k:None", some (.obj [("type", .str "mapper_parsing_exception")])⟩] }

/-- A permanent-delete change event for object `k` in bucket `b`. -/
def evDel : Json :=
  .obj [("eventName", .str "ObjectRemoved:Delete"),
        ("s3", .obj [("bucket", .obj [("name", .str "b")]),
                     ("object", .obj [("key", .str "k"), ("eTag", .str "e")])])]

/-- The parsed fields of `evDel`. -/
def fDel : RecordFields := ⟨"ObjectRemoved:Delete", "b", "k", none, "e", ""⟩

/-- An environment whose `head_object` succeeds with an empty object. -/
def envHead : Env :=
  { envNull with s3head := fun _ => .ok ⟨0, "2020-01-01T00:00:00", []⟩ }

/-- The delete document enqueued for `evDel` under `envHead`. -/
def docDel0 : Doc :=
  mk_body "ObjectRemoved:Delete" 0 "2020-01-01T00:00:00" "b" "" "k" "" "e" none
    envNull.now outEmpty

/-- Witness metadata: a `helium` sub-object with a comment, a leftover
system field and user metadata. -/
def metaW : List (String × Json) :=
  [("helium", .obj [("comment", .str "c"), ("x", .num 1),
                    ("user_meta", .obj [("u", .str "v")])])]

/-- The `transform_meta` output for `metaW`. -/
def outW : TransformOut :=
  ⟨some (.obj [("x", .num 1)]), .obj [("u", .str "v")], .str "c", .str "",
   "c" ++ " " ++ ("" ++ " " ++ (dumpsJson (.obj [("x", .num 1)]) ++ " " ++
     dumpsJson (.obj [("u", .str "v")])))⟩

/-- The argument dict built for a ranged, version-pinned `get`. -/
def argsW : S3Args := ⟨"b", "k", some "bytes=0-10000", some "v", none⟩

/-- Metadata whose `helium` key references the heap cell 0. -/
def metaC9 : List (String × HVal) := [("helium", .ref 0)]

/-- A one-cell heap holding a helium dict with user metadata, a comment and
a leftover system field. -/
def heapC9 : Heap :=
  [[("user_meta", .obj []), ("comment", .str "c"), ("x", .num 2)]]

/-- The result of `transform_meta_heap metaC9 heapC9`. -/
def outC9 : TransformRefOut :=
  ⟨some (.ref 0), .obj [], .str "c", .str "",
   "c" ++ " " ++ ("" ++ " " ++ dumpsJson (.obj [("x", .num 2)]))⟩

/-! ### Claim theorems -/

/-- C1 (code bug): on a flush where the only document fails with a
`mapper_parsing_exception`, `send_all` resubmits exactly that document in
exactly one further bulk call and empties the queue — but the resubmitted
document has only `user_meta` cleared: line 179 writes the unused key
`system` instead of clearing `system_meta`, which keeps its original
non-empty value. -/
theorem send_all_retry_keeps_system_meta :
    (DocumentQueue.send_all envC1 ⟨[d0], 10⟩).q.queue = [] ∧
    (DocumentQueue.send_all envC1 ⟨[d0], 10⟩).q.size = 0 ∧
    (DocumentQueue.send_all envC1 ⟨[d0], 10⟩).calls = [[d0], [clearForRetry d0]] ∧
    (clearForRetry d0).user_meta = .obj [] ∧
    (clearForRetry d0).system = some (.obj []) ∧
    (clearForRetry d0).system_meta = some (.obj [("a", .str "b")]) ∧
    (Json.obj [("a", .str "b")]).truthy = true :=
  ⟨rfl, rfl, rfl, rfl, rfl, rfl, rfl⟩

/-- C2: `append` bumps the size counter by `min(size, DOC_SIZE_LIMIT_BYTES)`
exactly when the text is non-empty; as long as the bumped counter stays at
or below `QUEUE_LIMIT_BYTES` no implicit flush fires and the document is
queued, and the append whose bump exceeds the threshold triggers exactly
one flush before returning. -/
theorem append_size_and_flush (env : Env) (q : DocumentQueue) (event_type : String)
    (size : Nat) (meta : Option (List (String × Json)))
    (lm bucket ext key text etag : String) (vid : Option String) (m : TransformOut)
    (hm : transform_meta (meta.getD []) = .ok m) :
    (q.size + (if text == "" then 0 else min size DOC_SIZE_LIMIT_BYTES) ≤ QUEUE_LIMIT_BYTES →
      (DocumentQueue.append env q event_type size meta lm bucket ext key text etag vid).flushCalls
          = none ∧
      (DocumentQueue.append env q event_type size meta lm bucket ext key text etag vid).q.size
          = q.size + (if text == "" then 0 else min size DOC_SIZE_LIMIT_BYTES) ∧
      (DocumentQueue.append env q event_type size meta lm bucket ext key text etag vid).q.queue
          = q.queue ++ [mk_body event_type size lm bucket ext key text etag vid env.now m]) ∧
    (QUEUE_LIMIT_BYTES < q.size + (if text == "" then 0 else min size DOC_SIZE_LIMIT_BYTES) →
      ((DocumentQueue.append env q event_type size meta lm bucket ext key text etag
          vid).flushCalls).isSome = true) := by
  by_cases htext : text = ""
  · have hb : (text == "") = true := beq_iff_eq.mpr htext
    constructor
    · intro hle
      simp only [hb, if_true] at hle
      simp only [Nat.add_zero] at hle
      simp [DocumentQueue.append, hm, hb, bne]
      rw [if_neg (by omega)]
      exact ⟨rfl, rfl, rfl⟩
    · intro hlt
      simp only [hb, if_true, Nat.add_zero] at hlt
      simp [DocumentQueue.append, hm, hb, bne]
      rw [if_pos (by omega)]
      simp
  · have hb : (text == "") = false := beq_eq_false_iff_ne.mpr htext
    constructor
    · intro hle
      simp only [hb, Bool.false_eq_true, if_false] at hle
      simp [DocumentQueue.append, hm, hb, bne]
      rw [if_neg (by omega)]
      exact ⟨rfl, rfl, rfl⟩
    · intro hlt
      simp only [hb, Bool.false_eq_true, if_false] at hlt
      simp [DocumentQueue.append, hm, hb, bne]
      rw [if_pos (by omega)]
      simp

/-- Witness for C2: under the threshold nothing flushes and the counter
grows by the capped text size; over the threshold the crossing append
flushes. -/
theorem append_size_and_flush_wit :
    ((DocumentQueue.append envNull ⟨[], 0⟩ "ObjectCreated:Put" 5 none "lm" "b" ".txt" "k" "t" "e"
        none).flushCalls = none ∧
      (DocumentQueue.append envNull ⟨[], 0⟩ "ObjectCreated:Put" 5 none "lm" "b" ".txt" "k" "t" "e"
        none).q.size = 5) ∧
    ((DocumentQueue.append envNull ⟨[], QUEUE_LIMIT_BYTES⟩ "ObjectCreated:Put" 5 none "lm" "b"
        ".txt" "k" "t" "e" none).flushCalls).isSome = true := by
  refine ⟨?_, ?_⟩
  · have h := (append_size_and_flush envNull ⟨[], 0⟩ "ObjectCreated:Put" 5 none "lm" "b" ".txt"
      "k" "t" "e" none outEmpty rfl).1 (by decide)
    exact ⟨h.1, h.2.1⟩
  · exact (append_size_and_flush envNull ⟨[], QUEUE_LIMIT_BYTES⟩ "ObjectCreated:Put" 5 none "lm"
      "b" ".txt" "k" "t" "e" none outEmpty rfl).2 (by decide)

/-- C6 (counterexample): when the metadata has no `helium` sub-object the
outputs are not all empty — `meta_text` is a single space (the space-join
of the empty comment and target) and `system_meta` is Python `None`, not
an empty dict. -/
theorem transform_meta_absent_not_empty :
    transform_meta [] = .ok ⟨none, .obj [], .str "", .str "", " "⟩ ∧ (" " : String) ≠ "" :=
  ⟨rfl, by decide⟩

/-- C6 (amended): whenever `transform_meta` returns, `meta_text` is the
space-join of comment, target, the JSON dump of the remaining system
metadata only if it is non-empty, and the JSON dump of `user_meta` only if
it is non-empty; when the `helium` key is absent, `user_meta`, `comment`
and `target` are empty, `system_meta` is `None`, and `meta_text` is the
single space produced by joining the two empty parts. -/
theorem transform_meta_spec (meta : List (String × Json)) (out : TransformOut)
    (h : transform_meta meta = .ok out) :
    pyJoinSp ([out.comment, out.target]
        ++ (if truthyO out.system_meta then [.str (dumpsJson (out.system_meta.getD .null))] else [])
        ++ (if out.user_meta.truthy then [.str (dumpsJson out.user_meta)] else []))
      = .ok out.meta_text ∧
    (dictGet meta "helium" = none →
      out.system_meta = none ∧ out.user_meta = .obj [] ∧ out.comment = .str "" ∧
      out.target = .str "" ∧ out.meta_text = " ") := by
  cases hm : dictGet meta "helium" with
  | none =>
      simp only [transform_meta, hm] at h
      cases h
      exact ⟨rfl, fun _ => ⟨rfl, rfl, rfl, rfl, rfl⟩⟩
  | some j =>
      cases j with
      | obj kvs =>
          simp only [transform_meta, hm] at h
          by_cases ht : (Json.obj kvs).truthy = true
          · rw [if_pos ht] at h
            rcases hp1 : dictPop kvs "user_meta" (.obj []) with ⟨um, kvs1⟩
            simp only [hp1] at h
            rcases hp2 : dictPop kvs1 "comment" (.str "") with ⟨c0, kvs2⟩
            simp only [hp2] at h
            rcases hp3 : dictPop kvs2 "target" (.str "") with ⟨t0, kvs3⟩
            simp only [hp3] at h
            cases hj : pyJoinSp ([pyOr c0 (.str ""), pyOr t0 (.str "")]
                ++ (if (Json.obj kvs3).truthy then [.str (dumpsJson (.obj kvs3))] else [])
                ++ (if um.truthy then [.str (dumpsJson um)] else [])) with
            | ok mt =>
                rw [hj] at h
                cases h
                refine ⟨?_, fun hc => Option.noConfusion hc⟩
                simpa [truthyO] using hj
            | error e => rw [hj] at h; cases h
          · rw [if_neg ht] at h
            cases h
            have ht' : (Json.obj kvs).truthy = false := by
              revert ht; cases (Json.obj kvs).truthy <;> simp
            refine ⟨?_, fun hc => Option.noConfusion hc⟩
            simp only [truthyO]
            rw [ht']
            rfl
      | null =>
          simp only [transform_meta, hm, Json.truthy, Bool.false_eq_true, if_false] at h
          cases h
          exact ⟨rfl, fun hc => Option.noConfusion hc⟩
      | bool b =>
          cases b with
          | false =>
              simp only [transform_meta, hm, Json.truthy, Bool.false_eq_true, if_false] at h
              cases h
              exact ⟨rfl, fun hc => Option.noConfusion hc⟩
          | true =>
              simp only [transform_meta, hm, Json.truthy, if_true] at h
              cases h
      | num n =>
          simp only [transform_meta, hm] at h
          by_cases hn : (Json.num n).truthy = true
          · rw [if_pos hn] at h; cases h
          · rw [if_neg hn] at h
            cases h
            have hn' : (Json.num n).truthy = false := by
              revert hn; cases (Json.num n).truthy <;> simp
            refine ⟨?_, fun hc => Option.noConfusion hc⟩
            simp only [truthyO]
            rw [hn']
            rfl
      | str s =>
          simp only [transform_meta, hm] at h
          by_cases hn : (Json.str s).truthy = true
          · rw [if_pos hn] at h; cases h
          · rw [if_neg hn] at h
            cases h
            have hn' : (Json.str s).truthy = false := by
              revert hn; cases (Json.str s).truthy <;> simp
            refine ⟨?_, fun hc => Option.noConfusion hc⟩
            simp only [truthyO]
            rw [hn']
            rfl
      | arr xs =>
          simp only [transform_meta, hm] at h
          by_cases hn : (Json.arr xs).truthy = true
          · rw [if_pos hn] at h; cases h
          · rw [if_neg hn] at h
            cases h
            have hn' : (Json.arr xs).truthy = false := by
              revert hn; cases (Json.arr xs).truthy <;> simp
            refine ⟨?_, fun hc => Option.noConfusion hc⟩
            simp only [truthyO]
            rw [hn']
            rfl

/-- Witness for C6's amended statement on concrete metadata with comment,
leftover system field and user metadata. -/
theorem transform_meta_spec_wit :
    transform_meta metaW = .ok outW ∧
    pyJoinSp ([outW.comment, outW.target]
        ++ (if truthyO outW.system_meta then [.str (dumpsJson (outW.system_meta.getD .null))]
            else [])
        ++ (if outW.user_meta.truthy then [.str (dumpsJson outW.user_meta)] else []))
      = .ok outW.meta_text :=
  ⟨rfl, (transform_meta_spec metaW outW rfl).1⟩

/-- C7: the request arguments of the S3 retry wrapper carry `VersionId`
and no `IfMatch` exactly when a version id is present (truthy), `IfMatch`
and no `VersionId` otherwise; a `get` with truthy size carries the byte
range `bytes=0-limit`, while `head` requests and gets of empty objects
carry no range. -/
theorem s3_arguments_pinning (operation bucket key : String) (size : Option Nat)
    (limit : Nat) (etag : String) (vid : Option String) (a : S3Args)
    (ha : s3_arguments operation bucket key size limit etag vid = .ok a) :
    (optStrTruthy vid = true → a.versionId = vid ∧ a.ifMatch = none) ∧
    (optStrTruthy vid = false → a.versionId = none ∧ a.ifMatch = some etag) ∧
    (operation = "get" → sizeTruthy size = true →
      a.range = some ("bytes=0-" ++ toString limit)) ∧
    (operation = "head" ∨ sizeTruthy size = false → a.range = none) := by
  unfold s3_arguments at ha
  by_cases hop : (operation == "get" || operation == "head") = true
  · rw [hop] at ha
    simp only [Bool.not_true, Bool.false_eq_true, if_false] at ha
    by_cases hv : optStrTruthy vid = true
    · rw [if_pos hv] at ha
      cases ha
      refine ⟨fun _ => ⟨rfl, rfl⟩, ?_, ?_, ?_⟩
      · intro hvf
        rw [hv] at hvf
        exact Bool.noConfusion hvf
      · intro hget hsz
        subst hget
        simp [hsz]
      · rintro (hh | hsz)
        · subst hh
          have hg : (("head" : String) == "get") = false := by decide
          simp [hg]
        · simp [hsz]
    · rw [if_neg hv] at ha
      cases ha
      have hv' : optStrTruthy vid = false := by
        revert hv; cases optStrTruthy vid <;> simp
      refine ⟨?_, fun _ => ⟨rfl, rfl⟩, ?_, ?_⟩
      · intro hvt
        rw [hv'] at hvt
        exact Bool.noConfusion hvt
      · intro hget hsz
        subst hget
        simp [hsz]
      · rintro (hh | hsz)
        · subst hh
          have hg : (("head" : String) == "get") = false := by decide
          simp [hg]
        · simp [hsz]
  · have hop' : (operation == "get" || operation == "head") = false := by
      revert hop; cases (operation == "get" || operation == "head") <;> simp
    rw [hop'] at ha
    simp at ha

/-- Witness for C7: a version-pinned ranged `get` at the document size cap. -/
theorem s3_arguments_pinning_wit :
    argsW.versionId = some "v" ∧ argsW.ifMatch = none ∧
    argsW.range = some ("bytes=0-" ++ toString DOC_SIZE_LIMIT_BYTES) := by
  have h := s3_arguments_pinning "get" "b" "k" (some 5) DOC_SIZE_LIMIT_BYTES "e" (some "v")
    argsW rfl
  exact ⟨(h.1 (by decide)).1, (h.1 (by decide)).2, h.2.2.1 rfl (by decide)⟩

/-! ### UTF-8 lemmas for byte-safe truncation (C3) -/

/-- Decoding a validly encoded scalar consumes exactly its encoding. -/
theorem u8d_cpEnc (repl : List Nat) (c : Nat) (hc : ValidScalar c) (r : List Nat) :
    u8d repl (cpEnc c ++ r) = c :: u8d repl r := by
  obtain ⟨h1, h2⟩ := hc
  by_cases ha1 : c < 128
  · simp only [cpEnc, if_pos ha1, List.cons_append, List.nil_append]
    simp only [u8d, u8dGo, if_pos ha1]
  · by_cases ha2 : c < 2048
    · have hb1 : ¬ (192 + c / 64 < 128) := by omega
      have hb2 : ¬ (192 + c / 64 < 194) := by omega
      have hb3 : 192 + c / 64 < 224 := by omega
      have hw : (128 : Nat) ≤ 128 + c % 64 ∧ 128 + c % 64 < 192 := by omega
      simp only [cpEnc, if_neg ha1, if_pos ha2, List.cons_append, List.nil_append]
      simp only [u8d, u8dGo, if_neg hb1, if_neg hb2, if_pos hb3, if_pos hw,
        if_pos (Nat.le_refl 1)]
      have hval : (192 + c / 64 - 192) * 64 + (128 + c % 64 - 128) = c := by omega
      rw [hval]
    · by_cases ha3 : c < 65536
      · have hb1 : ¬ (224 + c / 4096 < 128) := by omega
        have hb2 : ¬ (224 + c / 4096 < 194) := by omega
        have hb3 : ¬ (224 + c / 4096 < 224) := by omega
        have hb4 : 224 + c / 4096 < 240 := by omega
        have hw1 : (if (224 + c / 4096) == 224 then (160 : Nat) else 128) ≤ 128 + c / 64 % 64 ∧
            128 + c / 64 % 64 < (if (224 + c / 4096) == 237 then (160 : Nat) else 192) := by
          constructor
          · by_cases h : 224 + c / 4096 = 224
            · rw [beq_iff_eq.mpr h, if_pos rfl]
              omega
            · rw [beq_eq_false_iff_ne.mpr h, if_neg (by simp)]
              omega
          · by_cases h : 224 + c / 4096 = 237
            · rw [beq_iff_eq.mpr h, if_pos rfl]
              omega
            · rw [beq_eq_false_iff_ne.mpr h, if_neg (by simp)]
              omega
        have hw2 : (128 : Nat) ≤ 128 + c % 64 ∧ 128 + c % 64 < 192 := by omega
        simp only [cpEnc, if_neg ha1, if_neg ha2, if_pos ha3, List.cons_append, List.nil_append]
        simp only [u8d, u8dGo, if_neg hb1, if_neg hb2, if_neg hb3, if_pos hb4, if_pos hw1,
          if_neg (show ¬ (2 : Nat) ≤ 1 by omega), if_pos hw2,
          if_pos (show (2 : Nat) - 1 ≤ 1 by omega)]
        have hval : ((224 + c / 4096 - 224) * 64 + (128 + c / 64 % 64 - 128)) * 64
            + (128 + c % 64 - 128) = c := by omega
        rw [hval]
      · have hb1 : ¬ (240 + c / 262144 < 128) := by omega
        have hb2 : ¬ (240 + c / 262144 < 194) := by omega
        have hb3 : ¬ (240 + c / 262144 < 224) := by omega
        have hb4 : ¬ (240 + c / 262144 < 240) := by omega
        have hb5 : 240 + c / 262144 < 245 := by omega
        have hw1 : (if (240 + c / 262144) == 240 then (144 : Nat) else 128)
              ≤ 128 + c / 4096 % 64 ∧
            128 + c / 4096 % 64 < (if (240 + c / 262144) == 244 then (144 : Nat) else 192) := by
          constructor
          · by_cases h : 240 + c / 262144 = 240
            · rw [beq_iff_eq.mpr h, if_pos rfl]
              omega
            · rw [beq_eq_false_iff_ne.mpr h, if_neg (by simp)]
              omega
          · by_cases h : 240 + c / 262144 = 244
            · rw [beq_iff_eq.mpr h, if_pos rfl]
              omega
            · rw [beq_eq_false_iff_ne.mpr h, if_neg (by simp)]
              omega
        have hw2 : (128 : Nat) ≤ 128 + c / 64 % 64 ∧ 128 + c / 64 % 64 < 192 := by omega
        have hw3 : (128 : Nat) ≤ 128 + c % 64 ∧ 128 + c % 64 < 192 := by omega
        simp only [cpEnc, if_neg ha1, if_neg ha2, if_neg ha3, List.cons_append, List.nil_append]
        simp only [u8d, u8dGo, if_neg hb1, if_neg hb2, if_neg hb3, if_neg hb4, if_pos hb5,
          if_pos hw1, if_neg (show ¬ (3 : Nat) ≤ 1 by omega), if_pos hw2,
          if_neg (show ¬ (3 : Nat) - 1 ≤ 1 by omega), if_pos hw3,
          if_pos (show (3 : Nat) - 1 - 1 ≤ 1 by omega)]
        have hval : (((240 + c / 262144 - 240) * 64 + (128 + c / 4096 % 64 - 128)) * 64
            + (128 + c / 64 % 64 - 128)) * 64 + (128 + c % 64 - 128) = c := by omega
        rw [hval]

/-- Strict decoding of a validly encoded scalar consumes exactly its
encoding. -/
theorem u8dStrict_cpEnc (c : Nat) (hc : ValidScalar c) (r : List Nat) :
    u8dStrict (cpEnc c ++ r) = (u8dStrict r).map (c :: ·) := by
  obtain ⟨h1, h2⟩ := hc
  by_cases ha1 : c < 128
  · simp only [cpEnc, if_pos ha1, List.cons_append, List.nil_append]
    simp only [u8dStrict, u8dStrictGo, if_pos ha1]
  · by_cases ha2 : c < 2048
    · have hb1 : ¬ (192 + c / 64 < 128) := by omega
      have hb2 : ¬ (192 + c / 64 < 194) := by omega
      have hb3 : 192 + c / 64 < 224 := by omega
      have hw : (128 : Nat) ≤ 128 + c % 64 ∧ 128 + c % 64 < 192 := by omega
      simp only [cpEnc, if_neg ha1, if_pos ha2, List.cons_append, List.nil_append]
      simp only [u8dStrict, u8dStrictGo, if_neg hb1, if_neg hb2, if_pos hb3, if_pos hw,
        if_pos (Nat.le_refl 1)]
      have hval : (192 + c / 64 - 192) * 64 + (128 + c % 64 - 128) = c := by omega
      rw [hval]
    · by_cases ha3 : c < 65536
      · have hb1 : ¬ (224 + c / 4096 < 128) := by omega
        have hb2 : ¬ (224 + c / 4096 < 194) := by omega
        have hb3 : ¬ (224 + c / 4096 < 224) := by omega
        have hb4 : 224 + c / 4096 < 240 := by omega
        have hw1 : (if (224 + c / 4096) == 224 then (160 : Nat) else 128) ≤ 128 + c / 64 % 64 ∧
            128 + c / 64 % 64 < (if (224 + c / 4096) == 237 then (160 : Nat) else 192) := by
          constructor
          · by_cases h : 224 + c / 4096 = 224
            · rw [beq_iff_eq.mpr h, if_pos rfl]
              omega
            · rw [beq_eq_false_iff_ne.mpr h, if_neg (by simp)]
              omega
          · by_cases h : 224 + c / 4096 = 237
            · rw [beq_iff_eq.mpr h, if_pos rfl]
              omega
            · rw [beq_eq_false_iff_ne.mpr h, if_neg (by simp)]
              omega
        have hw2 : (128 : Nat) ≤ 128 + c % 64 ∧ 128 + c % 64 < 192 := by omega
        simp only [cpEnc, if_neg ha1, if_neg ha2, if_pos ha3, List.cons_append, List.nil_append]
        simp only [u8dStrict, u8dStrictGo, if_neg hb1, if_neg hb2, if_neg hb3, if_pos hb4,
          if_pos hw1, if_neg (show ¬ (2 : Nat) ≤ 1 by omega), if_pos hw2,
          if_pos (show (2 : Nat) - 1 ≤ 1 by omega)]
        have hval : ((224 + c / 4096 - 224) * 64 + (128 + c / 64 % 64 - 128)) * 64
            + (128 + c % 64 - 128) = c := by omega
        rw [hval]
      · have hb1 : ¬ (240 + c / 262144 < 128) := by omega
        have hb2 : ¬ (240 + c / 262144 < 194) := by omega
        have hb3 : ¬ (240 + c / 262144 < 224) := by omega
        have hb4 : ¬ (240 + c / 262144 < 240) := by omega
        have hb5 : 240 + c / 262144 < 245 := by omega
        have hw1 : (if (240 + c / 262144) == 240 then (144 : Nat) else 128)
              ≤ 128 + c / 4096 % 64 ∧
            128 + c / 4096 % 64 < (if (240 + c / 262144) == 244 then (144 : Nat) else 192) := by
          constructor
          · by_cases h : 240 + c / 262144 = 240
            · rw [beq_iff_eq.mpr h, if_pos rfl]
              omega
            · rw [beq_eq_false_iff_ne.mpr h, if_neg (by simp)]
              omega
          · by_cases h : 240 + c / 262144 = 244
            · rw [beq_iff_eq.mpr h, if_pos rfl]
              omega
            · rw [beq_eq_false_iff_ne.mpr h, if_neg (by simp)]
              omega
        have hw2 : (128 : Nat) ≤ 128 + c / 64 % 64 ∧ 128 + c / 64 % 64 < 192 := by omega
        have hw3 : (128 : Nat) ≤ 128 + c % 64 ∧ 128 + c % 64 < 192 := by omega
        simp only [cpEnc, if_neg ha1, if_neg ha2, if_neg ha3, List.cons_append, List.nil_append]
        simp only [u8dStrict, u8dStrictGo, if_neg hb1, if_neg hb2, if_neg hb3, if_neg hb4,
          if_pos hb5, if_pos hw1, if_neg (show ¬ (3 : Nat) ≤ 1 by omega), if_pos hw2,
          if_neg (show ¬ (3 : Nat) - 1 ≤ 1 by omega), if_pos hw3,
          if_pos (show (3 : Nat) - 1 - 1 ≤ 1 by omega)]
        have hval : (((240 + c / 262144 - 240) * 64 + (128 + c / 4096 % 64 - 128)) * 64
            + (128 + c / 64 % 64 - 128)) * 64 + (128 + c % 64 - 128) = c := by omega
        rw [hval]

/-- Ignore-mode decoding of a strict prefix of one scalar's encoding
discards it entirely. -/
theorem u8d_ignore_truncated (c : Nat) (hc : ValidScalar c) (n : Nat)
    (hn : n < (cpEnc c).length) :
    u8d [] ((cpEnc c).take n) = [] := by
  obtain ⟨h1, h2⟩ := hc
  by_cases ha1 : c < 128
  · simp only [cpEnc, if_pos ha1, List.length_cons, List.length_nil] at hn
    have hz : n = 0 := by omega
    subst hz
    rfl
  · by_cases ha2 : c < 2048
    · have hb1 : ¬ (192 + c / 64 < 128) := by omega
      have hb2 : ¬ (192 + c / 64 < 194) := by omega
      have hb3 : 192 + c / 64 < 224 := by omega
      simp only [cpEnc, if_neg ha1, if_pos ha2, List.length_cons, List.length_nil] at hn ⊢
      interval_cases n
      · rfl
      · simp only [List.take_succ_cons, List.take_zero]
        simp only [u8d, u8dGo, if_neg hb1, if_neg hb2, if_pos hb3]
    · by_cases ha3 : c < 65536
      · have hb1 : ¬ (224 + c / 4096 < 128) := by omega
        have hb2 : ¬ (224 + c / 4096 < 194) := by omega
        have hb3 : ¬ (224 + c / 4096 < 224) := by omega
        have hb4 : 224 + c / 4096 < 240 := by omega
        have hw1 : (if (224 + c / 4096) == 224 then (160 : Nat) else 128) ≤ 128 + c / 64 % 64 ∧
            128 + c / 64 % 64 < (if (224 + c / 4096) == 237 then (160 : Nat) else 192) := by
          constructor
          · by_cases h : 224 + c / 4096 = 224
            · rw [beq_iff_eq.mpr h, if_pos rfl]
              omega
            · rw [beq_eq_false_iff_ne.mpr h, if_neg (by simp)]
              omega
          · by_cases h : 224 + c / 4096 = 237
            · rw [beq_iff_eq.mpr h, if_pos rfl]
              omega
            · rw [beq_eq_false_iff_ne.mpr h, if_neg (by simp)]
              omega
        simp only [cpEnc, if_neg ha1, if_neg ha2, if_pos ha3, List.length_cons,
          List.length_nil] at hn ⊢
        interval_cases n
        · rfl
        · simp only [List.take_succ_cons, List.take_zero]
          simp only [u8d, u8dGo, if_neg hb1, if_neg hb2, if_neg hb3, if_pos hb4]
        · simp only [List.take_succ_cons, List.take_zero]
          simp only [u8d, u8dGo, if_neg hb1, if_neg hb2, if_neg hb3, if_pos hb4, if_pos hw1,
            if_neg (show ¬ (2 : Nat) ≤ 1 by omega)]
      · have hb1 : ¬ (240 + c / 262144 < 128) := by omega
        have hb2 : ¬ (240 + c / 262144 < 194) := by omega
        have hb3 : ¬ (240 + c / 262144 < 224) := by omega
        have hb4 : ¬ (240 + c / 262144 < 240) := by omega
        have hb5 : 240 + c / 262144 < 245 := by omega
        have hw1 : (if (240 + c / 262144) == 240 then (144 : Nat) else 128)
              ≤ 128 + c / 4096 % 64 ∧
            128 + c / 4096 % 64 < (if (240 + c / 262144) == 244 then (144 : Nat) else 192) := by
          constructor
          · by_cases h : 240 + c / 262144 = 240
            · rw [beq_iff_eq.mpr h, if_pos rfl]
              omega
            · rw [beq_eq_false_iff_ne.mpr h, if_neg (by simp)]
              omega
          · by_cases h : 240 + c / 262144 = 244
            · rw [beq_iff_eq.mpr h, if_pos rfl]
              omega
            · rw [beq_eq_false_iff_ne.mpr h, if_neg (by simp)]
              omega
        have hw2 : (128 : Nat) ≤ 128 + c / 64 % 64 ∧ 128 + c / 64 % 64 < 192 := by omega
        simp only [cpEnc, if_neg ha1, if_neg ha2, if_neg ha3, List.length_cons,
          List.length_nil] at hn ⊢
        interval_cases n
        · rfl
        · simp only [List.take_succ_cons, List.take_zero]
          simp only [u8d, u8dGo, if_neg hb1, if_neg hb2, if_neg hb3, if_neg hb4, if_pos hb5]
        · simp only [List.take_succ_cons, List.take_zero]
          simp only [u8d, u8dGo, if_neg hb1, if_neg hb2, if_neg hb3, if_neg hb4, if_pos hb5,
            if_pos hw1, if_neg (show ¬ (3 : Nat) ≤ 1 by omega)]
        · simp only [List.take_succ_cons, List.take_zero]
          simp only [u8d, u8dGo, if_neg hb1, if_neg hb2, if_neg hb3, if_neg hb4, if_pos hb5,
            if_pos hw1, if_neg (show ¬ (3 : Nat) ≤ 1 by omega), if_pos hw2,
            if_neg (show ¬ (3 : Nat) - 1 ≤ 1 by omega)]

/-- Encoding distributes over cons. -/
theorem utf8Encode_cons (c : Nat) (s : List Nat) :
    utf8Encode (c :: s) = cpEnc c ++ utf8Encode s := by
  simp [utf8Encode]

/-- Ignore-mode decoding of any byte prefix of a valid encoding yields a
prefix of the original string whose own encoding fits in the byte budget. -/
theorem u8d_ignore_take (s : List Nat) (hs : ∀ c ∈ s, ValidScalar c) (n : Nat) :
    ∃ k, u8d [] ((utf8Encode s).take n) = s.take k ∧
      (utf8Encode (s.take k)).length ≤ n := by
  induction s generalizing n with
  | nil => exact ⟨0, by simp [utf8Encode, u8d, u8dGo], by simp [utf8Encode]⟩
  | cons c s' ih =>
      have hc : ValidScalar c := hs c (by simp)
      have hs' : ∀ x ∈ s', ValidScalar x := fun x hx => hs x (by simp [hx])
      rw [utf8Encode_cons]
      by_cases hn : (cpEnc c).length ≤ n
      · rw [List.take_append_eq_append_take, List.take_of_length_le hn]
        rw [u8d_cpEnc [] c ⟨hc.1, hc.2⟩]
        obtain ⟨k, hk, hl⟩ := ih hs' (n - (cpEnc c).length)
        refine ⟨k + 1, ?_, ?_⟩
        · rw [hk, List.take_succ_cons]
        · rw [List.take_succ_cons, utf8Encode_cons, List.length_append]
          omega
      · push_neg at hn
        rw [List.take_append_eq_append_take]
        have h0 : n - (cpEnc c).length = 0 := by omega
        rw [h0, List.take_zero, List.append_nil]
        rw [u8d_ignore_truncated c ⟨hc.1, hc.2⟩ n hn]
        exact ⟨0, by simp, by simp [utf8Encode]⟩

/-- Strict decoding round-trips on any valid string. -/
theorem u8dStrict_encode (s : List Nat) (hs : ∀ c ∈ s, ValidScalar c) :
    u8dStrict (utf8Encode s) = some s := by
  induction s with
  | nil => rfl
  | cons c s' ih =>
      rw [utf8Encode_cons, u8dStrict_cpEnc c (hs c (by simp)),
        ih (fun x hx => hs x (by simp [hx]))]
      rfl

/-- C3: for every encodable string whose UTF-8 encoding exceeds the byte
cap, `trim_to_bytes` returns a string whose UTF-8 byte length is at most
the cap and that decodes cleanly — it is an exact code-point prefix of the
input, so no multi-byte code point is ever split. -/
theorem trim_to_bytes_safe (s : List Nat) (limit : Nat) (hs : ∀ c ∈ s, ValidScalar c)
    (h : limit < (utf8Encode s).length) :
    (utf8Encode (trim_to_bytes s limit)).length ≤ limit ∧
    u8dStrict (utf8Encode (trim_to_bytes s limit)) = some (trim_to_bytes s limit) ∧
    ∃ k, trim_to_bytes s limit = s.take k := by
  have htr : trim_to_bytes s limit = u8d [] ((utf8Encode s).take limit) := by
    unfold trim_to_bytes
    rw [if_neg (by omega)]
  obtain ⟨k, hk, hl⟩ := u8d_ignore_take s hs limit
  rw [htr, hk]
  refine ⟨hl, ?_, ⟨k, rfl⟩⟩
  exact u8dStrict_encode _ (fun x hx => hs x (List.take_subset k s hx))

/-- Witness for C3 on a 3-byte string cut at 2 bytes. -/
theorem trim_to_bytes_safe_wit :
    (utf8Encode (trim_to_bytes [65, 66, 67] 2)).length ≤ 2 ∧
    u8dStrict (utf8Encode (trim_to_bytes [65, 66, 67] 2)) = some (trim_to_bytes [65, 66, 67] 2) ∧
    trim_to_bytes [65, 66, 67] 2 = [65, 66] := by
  have h := trim_to_bytes_safe [65, 66, 67] 2 (by decide) (by decide)
  exact ⟨h.1, h.2.1, by decide⟩

/-! ### Handler-level lemmas (C4, C5, C10) -/

/-- `send_all` under a bulk backend that reports no per-item errors:
a no-op on an empty queue, otherwise one full bulk call, one empty
resubmission call, and a reset queue. -/
theorem send_all_clean (env : Env) (hb : ∀ qs, env.bulk qs = []) (q : DocumentQueue) :
    DocumentQueue.send_all env q =
      if q.queue.isEmpty then ⟨q, [], .ok ()⟩ else ⟨⟨[], 0⟩, [q.queue, []], .ok ()⟩ := by
  unfold DocumentQueue.send_all
  by_cases he : q.queue.isEmpty
  · rw [if_pos he, if_pos he]
  · rw [if_neg he, if_neg he]
    rw [hb q.queue]
    rfl

/-- The queue documents an `append` contributes are independent of the
queue it lands in: first flushed call plus remaining queue equals the old
queue plus what the same `append` enqueues into a fresh queue. -/
theorem append_queue_inv (env : Env) (hb : ∀ qs, env.bulk qs = []) (q : DocumentQueue)
    (ty : String) (size : Nat) (meta : Option (List (String × Json)))
    (lm b ext k text etag : String) (vid : Option String) :
    flushFirst (DocumentQueue.append env q ty size meta lm b ext k text etag vid).flushCalls
        ++ (DocumentQueue.append env q ty size meta lm b ext k text etag vid).q.queue
      = q.queue
        ++ (DocumentQueue.append env ⟨[], 0⟩ ty size meta lm b ext k text etag vid).q.queue := by
  unfold DocumentQueue.append
  cases hm : transform_meta (meta.getD []) with
  | error e => simp [flushFirst]
  | ok m =>
      simp only [hm]
      by_cases htext : (text != "") = true
      · simp only [htext, if_true]
        by_cases hth : QUEUE_LIMIT_BYTES < q.size + min size DOC_SIZE_LIMIT_BYTES
        · rw [if_pos hth,
            if_neg (by unfold QUEUE_LIMIT_BYTES DOC_SIZE_LIMIT_BYTES; omega)]
          rw [send_all_clean env hb]
          have hne : (q.queue ++ [mk_body ty size lm b ext k text etag vid env.now m]).isEmpty
              = false := by simp
          rw [hne]
          simp [flushFirst]
        · rw [if_neg hth,
            if_neg (by unfold QUEUE_LIMIT_BYTES DOC_SIZE_LIMIT_BYTES; omega)]
          simp [flushFirst]
      · have htext' : (text != "") = false := by
          revert htext; cases (text != "") <;> simp
        simp only [htext', Bool.false_eq_true, if_false]
        by_cases hth : QUEUE_LIMIT_BYTES < q.size
        · rw [if_pos hth, if_neg (by omega)]
          rw [send_all_clean env hb]
          have hne : (q.queue ++ [mk_body ty size lm b ext k text etag vid env.now m]).isEmpty
              = false := by simp
          rw [hne]
          simp [flushFirst]
        · rw [if_neg hth, if_neg (by omega)]
          simp [flushFirst]

/-- Processing one event contributes the same documents whatever queue it
starts from: the flushed-out prefix plus the remaining queue equals the
old queue plus the event's solo contribution. -/
theorem handle_event_queue_inv (env : Env) (hb : ∀ qs, env.bulk qs = []) (e : Json)
    (q : DocumentQueue) :
    flushFirst (handle_event env e q).flushCalls ++ (handle_event env e q).q.queue
      = q.queue ++ (handle_event env e ⟨[], 0⟩).q.queue := by
  unfold handle_event handle_event_core
  cases hp : parseRecord e with
  | error err => simp [flushFirst]
  | ok f =>
      simp only [hp]
      rcases hr : retry_s3 "head" f.bucket f.key none DOC_SIZE_LIMIT_BYTES f.etag f.versionId env
        with ⟨r, log1⟩
      simp only [hr]
      cases r with
      | error err => simp [flushFirst]
      | ok resp =>
          cases resp with
          | getRes g => simp [flushFirst]
          | headRes h =>
              by_cases hd : (f.eventName == OBJECT_DELETE) = true
              · simp only [if_pos hd]
                exact append_queue_inv env hb q f.eventName 0 none h.lastModified f.bucket
                  f.ext f.key "" f.etag f.versionId
              · have hd' : (f.eventName == OBJECT_DELETE) = false := by
                  revert hd; cases (f.eventName == OBJECT_DELETE) <;> simp
                simp only [hd', Bool.false_eq_true, if_false]
                rcases hc : get_contents env f.bucket f.key f.ext f.etag f.versionId
                    h.contentLength with ⟨textE, log2⟩
                simp only [hc]
                cases textE with
                | error err => simp [flushFirst]
                | ok text =>
                    cases hme : decode_helium env h.metadata with
                    | error err => simp [flushFirst]
                    | ok meta =>
                        exact append_queue_inv env hb q f.eventName h.contentLength (some meta)
                          h.lastModified f.bucket f.ext f.key text f.etag f.versionId

/-- `sentDocs` over a possibly-flushed step. -/
theorem sentDocs_step (o : Option (List (List Doc))) (fls : List (List (List Doc))) :
    sentDocs (o.toList ++ fls) = flushFirst o ++ sentDocs fls := by
  cases o <;> simp [sentDocs, flushFirst]

/-- The per-event loop enqueues exactly the concatenation of each event's
solo contribution, split between the implicit flushes (first bulk calls)
and the final queue. -/
theorem run_events_inv (env : Env) (hb : ∀ qs, env.bulk qs = []) :
    ∀ (events : List Json) (q : DocumentQueue),
      sentDocs (run_events env events q).2.1 ++ (run_events env events q).1.queue
        = q.queue ++ (events.map (fun e => (handle_event env e ⟨[], 0⟩).q.queue)).flatten := by
  intro events
  induction events with
  | nil => intro q; simp [run_events, sentDocs]
  | cons e es ih =>
      intro q
      have h1 := handle_event_queue_inv env hb e q
      have h2 := ih (handle_event env e q).q
      simp only [run_events]
      rcases hrun : run_events env es (handle_event env e q).q with ⟨qf, fls, logs⟩
      rw [hrun] at h2
      dsimp only at h2 ⊢
      simp only [List.map_cons, List.flatten_cons]
      rw [sentDocs_step, List.append_assoc, h2, ← List.append_assoc, h1, List.append_assoc]

/-- C4: with a bulk backend reporting no per-item errors, every per-event
exception is contained: the batch always terminates normally, the
documents sent across all flushes are exactly the concatenation of what
each event contributes when processed alone (so a failing event never
affects its siblings), the queue ends empty, and the terminal flush is the
single `send_all` after the loop (one full bulk call plus the empty
resubmission call, or nothing when the queue is already empty). -/
theorem handler_batch_isolated (env : Env) (hb : ∀ qs, env.bulk qs = [])
    (events : List Json) :
    (handler_records env events).err = .ok () ∧
    (handler_records env events).q.queue = [] ∧
    sentDocs (handler_records env events).implicit ++ (handler_records env events).final.headD []
      = (events.map (fun e => (handle_event env e ⟨[], 0⟩).q.queue)).flatten ∧
    ((handler_records env events).final = [] ∨
      ∃ l, (handler_records env events).final = [l, []]) := by
  have hinv := run_events_inv env hb events ⟨[], 0⟩
  unfold handler_records
  rcases hrun : run_events env events ⟨[], 0⟩ with ⟨q1, fls, logs⟩
  rw [hrun] at hinv
  dsimp only at hinv ⊢
  rw [List.nil_append] at hinv
  rw [send_all_clean env hb q1]
  by_cases he : q1.queue.isEmpty
  · rw [if_pos he]
    have hq : q1.queue = [] := by
      cases hql : q1.queue
      · rfl
      · rw [hql] at he; simp at he
    refine ⟨rfl, hq, ?_, Or.inl rfl⟩
    rw [hq, List.append_nil] at hinv
    simpa using hinv
  · rw [if_neg he]
    exact ⟨rfl, rfl, hinv, Or.inr ⟨q1.queue, rfl⟩⟩

/-- The argument build of a `head` request never raises. -/
theorem s3_arguments_head_ok (bucket key : String) (size : Option Nat) (limit : Nat)
    (etag : String) (vid : Option String) :
    ∃ a, s3_arguments "head" bucket key size limit etag vid = .ok a := by
  unfold s3_arguments
  rw [if_neg (by decide)]
  by_cases hv : optStrTruthy vid = true
  · rw [if_pos hv]; exact ⟨_, rfl⟩
  · rw [if_neg hv]; exact ⟨_, rfl⟩

/-- C5: an event whose name is the permanent-delete variant issues only
`head` calls to S3 (content extraction, hence any `get`, is skipped), and
the document it enqueues — appended after the existing queue — has empty
text and operation `delete`; with the queue at or under the threshold no
implicit flush fires. -/
theorem delete_event_skips_get (env : Env) (ev : Json) (q : DocumentQueue)
    (hname : ∀ f, parseRecord ev = .ok f → f.eventName = OBJECT_DELETE)
    (hq : q.size ≤ QUEUE_LIMIT_BYTES) :
    (∀ c ∈ (handle_event env ev q).log, c.1 = "head") ∧
    (handle_event env ev q).flushCalls = none ∧
    ∀ d ∈ (handle_event env ev q).q.queue.drop q.queue.length,
      d.text = "" ∧ d._op_type = "delete" := by
  unfold handle_event handle_event_core
  cases hp : parseRecord ev with
  | error err =>
      refine ⟨by simp, rfl, ?_⟩
      rw [List.drop_length]
      simp
  | ok f =>
      have hev : f.eventName = OBJECT_DELETE := hname f hp
      have hd : (f.eventName == OBJECT_DELETE) = true := beq_iff_eq.mpr hev
      simp only [hp]
      obtain ⟨args, hargs⟩ := s3_arguments_head_ok f.bucket f.key none DOC_SIZE_LIMIT_BYTES
        f.etag f.versionId
      simp only [retry_s3, hargs, if_pos (show (("head" : String) == "head") = true from rfl)]
      cases hh : env.s3head args with
      | error err =>
          simp only [Except.map]
          refine ⟨?_, by trivial, ?_⟩
          · intro c hc
            simp at hc
            rw [hc]
          · rw [List.drop_length]
            simp
      | ok h =>
          simp only [Except.map]
          simp only [if_pos hd]
          simp only [DocumentQueue.append]
          have htm : transform_meta ((none : Option (List (String × Json))).getD [])
              = .ok ⟨none, .obj [], .str "", .str "", " "⟩ := rfl
          simp only [htm]
          have hbe : (("" : String) != "") = false := by decide
          simp only [hbe, Bool.false_eq_true, if_false]
          rw [if_neg (show ¬ QUEUE_LIMIT_BYTES < q.size by omega)]
          refine ⟨?_, by trivial, ?_⟩
          · intro c hc
            simp at hc
            rw [hc]
          · rw [List.drop_left]
            intro d hd2
            rw [List.mem_singleton] at hd2
            subst hd2
            exact ⟨rfl, by simp [mk_body, hev]⟩

/-- C10: an event whose notification carries no version id enqueues its
document under the composite id `key ++ ":None"` — Python interpolates the
absent version as the string `None` — so unversioned writes for one key
always map to the same id. -/
theorem unversioned_doc_id (env : Env) (ev : Json) (q : DocumentQueue) (f : RecordFields)
    (hf : parseRecord ev = .ok f) (hv : f.versionId = none)
    (hq : q.size + DOC_SIZE_LIMIT_BYTES ≤ QUEUE_LIMIT_BYTES) :
    ∀ d ∈ (handle_event env ev q).q.queue.drop q.queue.length,
      d._id = f.key ++ ":None" := by
  unfold handle_event handle_event_core
  simp only [hf]
  rcases hr : retry_s3 "head" f.bucket f.key none DOC_SIZE_LIMIT_BYTES f.etag f.versionId env
    with ⟨r, log1⟩
  simp only [hr]
  cases r with
  | error err =>
      rw [List.drop_length]
      simp
  | ok resp =>
      cases resp with
      | getRes g =>
          rw [List.drop_length]
          simp
      | headRes h =>
          have hid : ∀ ty sz lm text (m : TransformOut),
              (mk_body ty sz lm f.bucket f.ext f.key text f.etag f.versionId env.now m)._id
                = f.key ++ ":None" := by
            intro ty sz lm text m
            simp only [mk_body, hv, pyFStr]
            rw [String.append_assoc]
            rfl
          by_cases hd : (f.eventName == OBJECT_DELETE) = true
          · simp only [if_pos hd]
            simp only [DocumentQueue.append]
            have htm : transform_meta ((none : Option (List (String × Json))).getD [])
                = .ok ⟨none, .obj [], .str "", .str "", " "⟩ := rfl
            simp only [htm]
            have hbe : (("" : String) != "") = false := by decide
            simp only [hbe, Bool.false_eq_true, if_false]
            rw [if_neg (show ¬ QUEUE_LIMIT_BYTES < q.size by omega)]
            rw [List.drop_left]
            intro d hd2
            rw [List.mem_singleton] at hd2
            subst hd2
            exact hid _ _ _ _ _
          · have hd' : (f.eventName == OBJECT_DELETE) = false := by
              revert hd; cases (f.eventName == OBJECT_DELETE) <;> simp
            simp only [hd', Bool.false_eq_true, if_false]
            rcases hc : get_contents env f.bucket f.key f.ext f.etag f.versionId h.contentLength
              with ⟨textE, log2⟩
            simp only [hc]
            cases textE with
            | error err =>
                rw [List.drop_length]
                simp
            | ok text =>
                cases hme : decode_helium env h.metadata with
                | error err =>
                    rw [List.drop_length]
                    simp
                | ok meta =>
                    simp only [DocumentQueue.append]
                    cases htm : transform_meta ((some meta).getD []) with
                    | error e =>
                        rw [List.drop_length]
                        simp
                    | ok m =>
                        by_cases htext : (text != "") = true
                        · simp only [htext, if_true]
                          rw [if_neg (by omega)]
                          rw [List.drop_left]
                          intro d hd2
                          rw [List.mem_singleton] at hd2
                          subst hd2
                          exact hid _ _ _ _ _
                        · have htext' : (text != "") = false := by
                            revert htext; cases (text != "") <;> simp
                          simp only [htext', Bool.false_eq_true, if_false]
                          rw [if_neg (by omega)]
                          rw [List.drop_left]
                          intro d hd2
                          rw [List.mem_singleton] at hd2
                          subst hd2
                          exact hid _ _ _ _ _

/-- C8: notebook-cell extraction never raises: either the fetch, the UTF-8
decode, or the parse failed and the result is the empty string, or the
whole pipeline succeeded and the result is the extracted text. -/
theorem get_notebook_cells_guard (env : Env) (bucket key : String) (size : Nat)
    (etag : String) (vid : Option String) :
    (get_notebook_cells env bucket key size etag vid).1 = "" ∨
    ∃ g cps t,
      (retry_s3 "get" bucket key (some size) DOC_SIZE_LIMIT_BYTES etag vid env).1
        = .ok (.getRes g) ∧
      u8dStrict g.body = some cps ∧
      extract_text env (cpsToStr cps) = .ok t ∧
      (get_notebook_cells env bucket key size etag vid).1 = t := by
  rcases hr : retry_s3 "get" bucket key (some size) DOC_SIZE_LIMIT_BYTES etag vid env
    with ⟨r, log⟩
  cases r with
  | error e => left; simp [get_notebook_cells, hr]
  | ok resp =>
      cases resp with
      | headRes h => left; simp [get_notebook_cells, hr]
      | getRes g =>
          cases hdec : u8dStrict g.body with
          | none => left; simp [get_notebook_cells, hr, hdec]
          | some cps =>
              cases he : extract_text env (cpsToStr cps) with
              | error e => left; simp [get_notebook_cells, hr, hdec, he]
              | ok t =>
                  right
                  exact ⟨g, cps, t, rfl, hdec, he,
                    by simp [get_notebook_cells, hr, hdec, he]⟩

/-! ### Mutation of the metadata argument (C9) -/

/-- A lookup misses exactly when the key is absent from the key list. -/
theorem lookup_eq_none_iff (k : String) (l : List (String × Json)) :
    l.lookup k = none ↔ k ∉ l.map Prod.fst := by
  induction l with
  | nil => simp
  | cons p t ih =>
      rcases p with ⟨a, b⟩
      by_cases h : k = a
      · subst h
        simp [List.lookup]
      · simp [List.lookup, beq_eq_false_iff_ne.mpr h, h, ih]

/-- Erasing the binding of `k` from a dict with distinct keys removes `k`
entirely. -/
theorem lookup_eraseP_key (k : String) (l : List (String × Json))
    (hnd : (l.map Prod.fst).Nodup) :
    (l.eraseP (fun kv => kv.1 == k)).lookup k = none := by
  induction l with
  | nil => simp [List.eraseP]
  | cons p t ih =>
      rcases p with ⟨a, b⟩
      simp only [List.map_cons, List.nodup_cons] at hnd
      by_cases h : a = k
      · subst h
        rw [List.eraseP_cons_of_pos (by simp)]
        exact (lookup_eq_none_iff a t).mpr hnd.1
      · rw [List.eraseP_cons_of_neg (by simp [h])]
        have hba : (k == a) = false := beq_eq_false_iff_ne.mpr (fun hk => h hk.symm)
        simp only [List.lookup, hba]
        exact ih hnd.2

/-- Popping `k` leaves no binding of `k` (distinct keys). -/
theorem dictPop_lookup_key (kvs : List (String × Json)) (k : String) (d : Json)
    (hnd : (kvs.map Prod.fst).Nodup) : ((dictPop kvs k d).2).lookup k = none := by
  unfold dictPop
  cases hl : kvs.lookup k with
  | none => exact hl
  | some v => exact lookup_eraseP_key k kvs hnd

/-- Popping only removes keys. -/
theorem dictPop_keys_sublist (kvs : List (String × Json)) (k : String) (d : Json) :
    List.Sublist (((dictPop kvs k d).2).map Prod.fst) (kvs.map Prod.fst) := by
  unfold dictPop
  cases hl : kvs.lookup k with
  | none => exact List.Sublist.refl _
  | some v => exact (List.eraseP_sublist _).map Prod.fst

/-- An absent key stays absent after dropping bindings. -/
theorem lookup_none_mono {l1 l2 : List (String × Json)} (k : String)
    (hs : List.Sublist (l1.map Prod.fst) (l2.map Prod.fst)) (h : l2.lookup k = none) :
    l1.lookup k = none :=
  (lookup_eq_none_iff k l1).mpr (fun hm => (lookup_eq_none_iff k l2).mp h (hs.subset hm))

/-- Popping preserves key distinctness. -/
theorem dictPop_nodup (kvs : List (String × Json)) (k : String) (d : Json)
    (hnd : (kvs.map Prod.fst).Nodup) : (((dictPop kvs k d).2).map Prod.fst).Nodup :=
  List.Nodup.sublist (dictPop_keys_sublist kvs k d) hnd

/-- C9: `transform_meta` mutates its argument in place: when the metadata
holds a (non-empty, distinct-keyed) `helium` dict object, the call removes
the `user_meta`, `comment` and `target` bindings from that very heap cell
— so the caller's metadata no longer contains them — and the returned
`system_meta` is the same reference (the same dict object, not a copy). -/
theorem transform_meta_heap_mutates (meta : List (String × HVal)) (heap : Heap)
    (a : Nat) (kvs : List (String × Json))
    (hm : meta.lookup "helium" = some (.ref a))
    (hh : heap.get? a = some kvs)
    (hne : kvs ≠ [])
    (hnd : (kvs.map Prod.fst).Nodup) :
    (((transform_meta_heap meta heap).2).get? a).map
        (fun kvs3 => (kvs3.lookup "user_meta", kvs3.lookup "comment", kvs3.lookup "target"))
      = some (none, none, none) ∧
    ∀ out, (transform_meta_heap meta heap).1 = .ok out → out.system_meta = some (.ref a) := by
  have ht : (Json.obj kvs).truthy = true := by
    cases kvs with
    | nil => exact absurd rfl hne
    | cons p t => rfl
  have hlt : a < heap.length := by
    by_contra hcon
    push_neg at hcon
    rw [List.get?_eq_none.mpr hcon] at hh
    cases hh
  unfold transform_meta_heap
  simp only [hm, hh, if_pos ht]
  rcases hp1 : dictPop kvs "user_meta" (.obj []) with ⟨um, kvs1⟩
  simp only [hp1]
  rcases hp2 : dictPop kvs1 "comment" (.str "") with ⟨c0, kvs2⟩
  simp only [hp2]
  rcases hp3 : dictPop kvs2 "target" (.str "") with ⟨t0, kvs3⟩
  simp only [hp3]
  have h1 : kvs1.lookup "user_meta" = none := by
    have h := dictPop_lookup_key kvs "user_meta" (.obj []) hnd
    rw [hp1] at h
    exact h
  have hnd1 : (kvs1.map Prod.fst).Nodup := by
    have h := dictPop_nodup kvs "user_meta" (.obj []) hnd
    rw [hp1] at h
    exact h
  have hs2 : List.Sublist (kvs2.map Prod.fst) (kvs1.map Prod.fst) := by
    have h := dictPop_keys_sublist kvs1 "comment" (.str "")
    rw [hp2] at h
    exact h
  have h2 : kvs2.lookup "comment" = none := by
    have h := dictPop_lookup_key kvs1 "comment" (.str "") hnd1
    rw [hp2] at h
    exact h
  have hnd2 : (kvs2.map Prod.fst).Nodup := by
    have h := dictPop_nodup kvs1 "comment" (.str "") hnd1
    rw [hp2] at h
    exact h
  have hs3 : List.Sublist (kvs3.map Prod.fst) (kvs2.map Prod.fst) := by
    have h := dictPop_keys_sublist kvs2 "target" (.str "")
    rw [hp3] at h
    exact h
  have h3 : kvs3.lookup "target" = none := by
    have h := dictPop_lookup_key kvs2 "target" (.str "") hnd2
    rw [hp3] at h
    exact h
  have h1f : kvs3.lookup "user_meta" = none :=
    lookup_none_mono _ hs3 (lookup_none_mono _ hs2 h1)
  have h2f : kvs3.lookup "comment" = none := lookup_none_mono _ hs3 h2
  have hset : (heap.set a kvs3).get? a = some kvs3 := by
    rw [List.get?_set_of_lt kvs3 heap hlt, if_pos rfl]
  cases hj : pyJoinSp ([pyOr c0 (.str ""), pyOr t0 (.str "")]
      ++ (if (Json.obj kvs3).truthy then [.str (dumpsJson (.obj kvs3))] else [])
      ++ (if um.truthy then [.str (dumpsJson um)] else [])) with
  | ok mt =>
      simp only [hj]
      refine ⟨?_, ?_⟩
      · rw [hset]
        simp [h1f, h2f, h3]
      · intro out hout
        cases hout
        rfl
  | error e =>
      simp only [hj]
      refine ⟨?_, ?_⟩
      · rw [hset]
        simp [h1f, h2f, h3]
      · intro out hout
        cases hout

/-- Witness for C9 on a one-cell heap. -/
theorem transform_meta_heap_mutates_wit :
    (((transform_meta_heap metaC9 heapC9).2).get? 0).map
        (fun kvs3 => (kvs3.lookup "user_meta", kvs3.lookup "comment", kvs3.lookup "target"))
      = some (none, none, none) ∧
    outC9.system_meta = some (.ref 0) := by
  have h := transform_meta_heap_mutates metaC9 heapC9 0
    [("user_meta", .obj []), ("comment", .str "c"), ("x", .num 2)] rfl rfl
    (by simp) (by decide)
  exact ⟨h.1, h.2 outC9 rfl⟩

/-- Witness for C4 on a one-event batch. -/
theorem handler_batch_isolated_wit :
    (handler_records envHead [evDel]).err = .ok () ∧
    (handler_records envHead [evDel]).q.queue = [] := by
  have h := handler_batch_isolated envHead (fun qs => rfl) [evDel]
  exact ⟨h.1, h.2.1⟩

/-- Witness for C5: the delete event issues only the head call and no
implicit flush. -/
theorem delete_event_skips_get_wit :
    (handle_event envHead evDel ⟨[], 0⟩).flushCalls = none ∧
    (handle_event envHead evDel ⟨[], 0⟩).log = [("head", ⟨"b", "k", none, none, some "e"⟩)] := by
  refine ⟨(delete_event_skips_get envHead evDel ⟨[], 0⟩ ?_ (by decide)).2.1, rfl⟩
  intro f hf
  rw [show parseRecord evDel = Except.ok fDel from rfl] at hf
  injection hf with hf2
  subst hf2
  rfl

/-- Witness for C10: the enqueued delete document for the unversioned
event carries the `:None` composite id. -/
theorem unversioned_doc_id_wit : docDel0._id = "k:None" := by
  have h := unversioned_doc_id envHead evDel ⟨[], 0⟩ fDel rfl rfl (by decide)
  exact h docDel0 (by
    rw [show (handle_event envHead evDel (⟨[], 0⟩ : DocumentQueue)).q.queue.drop
        (⟨[], 0⟩ : DocumentQueue).queue.length = [docDel0] from rfl]
    exact List.mem_singleton.mpr rfl)

end Indexer
